import Mathlib

/-!
Verification of the doc_digest chapter-analysis pipeline.

Shallow embedding of the repository's core: the Pydantic data model
(`src/models.py`), the phase-2 extraction/renumbering logic
(`src/services/llm_client.py`), and the persistence layer
(`src/db/connection.py`).  The generation engine is out of scope and is
modelled as explicit input lists (one entry per section).  The SQLite
schema file is absent from the sources, so the relational constraints
(primary keys, foreign keys, cascading delete) are modelled from the
specification where noted.
-/

namespace Graff

/-! ## Bloom levels (`src/models.py`, `PropositionBloom` / `TakeawayBloom`) -/

/-- Allowed Bloom levels for propositions (`models.py` line 21). -/
inductive PropositionBloom
  | remember
  | understand
  | apply
  | analyze
deriving DecidableEq, Repr

/-- Allowed Bloom levels for key takeaways (`models.py` line 27). -/
inductive TakeawayBloom
  | analyze
  | evaluate
deriving DecidableEq, Repr

/-! ## Phase 1 data model (`src/models.py`) -/

/-- A hierarchical section of the chapter (`models.py`, `class Section`). -/
structure Sec where
  unit_id : String
  title : String
  level : Int
  parent_unit_id : Option String
  start_location : Option String
  end_location : Option String
deriving DecidableEq, Repr

/-- A key entity (`models.py`, `class Entity`). -/
structure Entity where
  name : String
  type : String
deriving DecidableEq, Repr

/-- Phase 1 output (`models.py`, `class Phase1Comprehension`). -/
structure Phase1Comprehension where
  summary : String
  sections : List Sec
  key_entities : List Entity
  keywords : List String
deriving DecidableEq, Repr

/-! ## Phase 2 data model (`src/models.py`) -/

/-- An atomic fact (`models.py`, `class Proposition`). -/
structure Proposition where
  proposition_id : String
  chapter_id : String
  unit_id : String
  proposition_text : String
  bloom_level : PropositionBloom
  bloom_verb : String
  evidence_location : String
  source_type : String
  tags : List String
deriving DecidableEq, Repr

/-- A synthesized takeaway (`models.py`, `class KeyTakeaway`). -/
structure KeyTakeaway where
  takeaway_id : String
  chapter_id : String
  unit_id : Option String
  text : String
  proposition_ids : List String
  dominant_bloom_level : Option TakeawayBloom
  tags : List String
deriving DecidableEq, Repr

/-- Phase 2 output (`models.py`, `class Phase2Output`). -/
structure Phase2Output where
  propositions : List Proposition
  key_takeaways : List KeyTakeaway
  notes : Option String
deriving DecidableEq, Repr

/-- The aggregate root (`models.py`, `class ChapterAnalysis`). -/
structure ChapterAnalysis where
  schema_version : String
  book_id : String
  chapter_id : String
  chapter_title : String
  phase1 : Phase1Comprehension
  phase2 : Phase2Output
deriving DecidableEq, Repr

/-! ## Decimal formatting of sequence numbers

Models Python's `f"{idx:03d}"` used for proposition and takeaway ids
(`llm_client.py` lines 364 and 467). -/

/-- The decimal digit character for `d` (meaningful for `d < 10`). -/
def digitChar (d : Nat) : Char :=
  if d = 0 then '0' else if d = 1 then '1' else if d = 2 then '2'
  else if d = 3 then '3' else if d = 4 then '4' else if d = 5 then '5'
  else if d = 6 then '6' else if d = 7 then '7' else if d = 8 then '8'
  else '9'

/-- Fuel-driven decimal rendering (most significant digit first). -/
def natDigitsAux : Nat → Nat → List Char
  | 0, _ => []
  | fuel + 1, n =>
    if n < 10 then [digitChar n]
    else natDigitsAux fuel (n / 10) ++ [digitChar (n % 10)]

/-- Decimal rendering of a natural number, as Python's `str`/`%d`. -/
def natDigits (n : Nat) : List Char := natDigitsAux (n + 1) n

/-- Python's `f"{n:03d}"`: zero-pad the decimal rendering to width 3. -/
def fmt3 (n : Nat) : List Char :=
  List.replicate (3 - (natDigits n).length) '0' ++ natDigits n

/-- Numeric value of a digit string (inverse of rendering). -/
def digitsVal (l : List Char) : Nat :=
  l.foldl (fun a c => 10 * a + (c.toNat - 48)) 0

/-! ## Identifier formats (`llm_client.py` lines 364 and 467)

`propId` models `f"{chapter_id}_{section.unit_id}_p{idx:03d}"` and
`takeawayId` models `f"{chapter_id}_t{idx:03d}"`; an f-string denotes the
concatenation of its pieces. -/

/-- Character-level proposition id. -/
def propIdChars (ch u : List Char) (seq : Nat) : List Char :=
  ch ++ '_' :: (u ++ '_' :: 'p' :: fmt3 seq)

/-- Proposition id `{chapter_id}_{unit_id}_p{seq:03d}`. -/
def propId (chapterId unitId : String) (seq : Nat) : String :=
  String.mk (propIdChars chapterId.data unitId.data seq)

/-- Character-level takeaway id. -/
def tkIdChars (ch : List Char) (seq : Nat) : List Char :=
  ch ++ '_' :: 't' :: fmt3 seq

/-- Takeaway id `{chapter_id}_t{seq:03d}`. -/
def takeawayId (chapterId : String) (seq : Nat) : String :=
  String.mk (tkIdChars chapterId.data seq)

/-! ## Substring search (Python `str.find`, used by `_extract_section_text`)

Texts are modelled as `List Char`.  `findSubFrom hay needle start` models
Python's `hay.find(needle, start)`, with `none` for `-1`. -/

/-- Does `needle` occur in `hay` at offset `i` (Python slice equality)? -/
def matchAt (hay needle : List Char) (i : Nat) : Bool :=
  decide (i + needle.length ≤ hay.length) &&
    decide ((hay.drop i).take needle.length = needle)

/-- Fuel-driven linear scan for the first match at or after `i`. -/
def findSubAux (hay needle : List Char) : Nat → Nat → Option Nat
  | 0, _ => none
  | fuel + 1, i =>
    if matchAt hay needle i then some i else findSubAux hay needle fuel (i + 1)

/-- Python's `hay.find(needle, start)` (`none` models `-1`). -/
def findSubFrom (hay needle : List Char) (start : Nat) : Option Nat :=
  findSubAux hay needle (hay.length + 1 - start) start

/-- Python's `str.lower()` on the model (character-wise lowering). -/
def lowerStr (l : List Char) : List Char := l.map Char.toLower

/-- Whether `needle` occurs in `hay` at offset `i`. -/
def OccursAt (hay needle : List Char) (i : Nat) : Prop :=
  i + needle.length ≤ hay.length ∧ (hay.drop i).take needle.length = needle

instance (hay needle : List Char) (i : Nat) : Decidable (OccursAt hay needle i) := by
  unfold OccursAt; exact inferInstance

/-- Offset `i` is the first offset `≥ start` at which `needle` occurs in `hay`. -/
def FirstOccur (hay needle : List Char) (start i : Nat) : Prop :=
  start ≤ i ∧ OccursAt hay needle i ∧
    ∀ k < i, start ≤ k → ¬ OccursAt hay needle k

instance (hay needle : List Char) (start i : Nat) :
    Decidable (FirstOccur hay needle start i) := by
  unfold FirstOccur; exact inferInstance

/-- Somewhere at or after `start`, `needle` occurs in `hay`. -/
def OccursFrom (hay needle : List Char) (start : Nat) : Prop :=
  ∃ i, start ≤ i ∧ OccursAt hay needle i

instance (hay needle : List Char) (start : Nat) :
    Decidable (OccursFrom hay needle start) :=
  decidable_of_iff (∃ i < hay.length + 1, start ≤ i ∧ OccursAt hay needle i) (by
    constructor
    · rintro ⟨i, _, h⟩; exact ⟨i, h⟩
    · rintro ⟨i, hs, h⟩
      exact ⟨i, by have := h.1; omega, hs, h⟩)

/-! ## Section text extraction (`llm_client.py`, `_extract_section_text`) -/

/-- Model of `_extract_section_text(full_text, section_title, next_section_title)`
(`llm_client.py` lines 104-136): find the title case-sensitively, then
case-insensitively; if absent, return the whole text; otherwise slice from
the title's offset to the next section title's offset (searched the same
way from `start + len(title)`) or to end of document. -/
def extractSectionText (fullText title : List Char)
    (next : Option (List Char)) : List Char :=
  let start? :=
    match findSubFrom fullText title 0 with
    | some i => some i
    | none => findSubFrom (lowerStr fullText) (lowerStr title) 0
  match start? with
  | none => fullText
  | some s =>
    let e :=
      match next with
      | some nt =>
        match findSubFrom fullText nt (s + title.length) with
        | some j => j
        | none =>
          match findSubFrom (lowerStr fullText) (lowerStr nt) (s + title.length) with
          | some j => j
          | none => fullText.length
      | none => fullText.length
    (fullText.drop s).take (e - s)

/-- The per-section extraction loop of `run_phase_2` (`llm_client.py`
lines 209-214): each section's text is extracted with the following
section's title as the boundary, the last section with no boundary. -/
def sectionSpans (fullText : List Char) : List Sec → List (List Char)
  | [] => []
  | [s] => [extractSectionText fullText s.title.data none]
  | s :: s' :: rest =>
    extractSectionText fullText s.title.data (some s'.title.data) ::
      sectionSpans fullText (s' :: rest)

/-- The start offset the code uses for a section title: first
case-sensitive occurrence, else first case-insensitive occurrence. -/
def TitleStart (hay needle : List Char) (i : Nat) : Prop :=
  FirstOccur hay needle 0 i ∨
    (¬ OccursFrom hay needle 0 ∧ FirstOccur (lowerStr hay) (lowerStr needle) 0 i)

instance (hay needle : List Char) (i : Nat) : Decidable (TitleStart hay needle i) := by
  unfold TitleStart; exact inferInstance

/-- The end offset the code uses for a section's span, searching for the
next title from offset `lo`: case-sensitive first occurrence, else
case-insensitive, else end of document. -/
def BoundaryEnd (hay nt : List Char) (lo e : Nat) : Prop :=
  FirstOccur hay nt lo e ∨
    (¬ OccursFrom hay nt lo ∧ FirstOccur (lowerStr hay) (lowerStr nt) lo e) ∨
    (¬ OccursFrom hay nt lo ∧ ¬ OccursFrom (lowerStr hay) (lowerStr nt) lo ∧
      e = hay.length)

instance (hay nt : List Char) (lo e : Nat) : Decidable (BoundaryEnd hay nt lo e) := by
  unfold BoundaryEnd; exact inferInstance

/-! ## Proposition-count targets (`llm_client.py` lines 241-242 / 303-304)

`min_props = max(3, int(words / 150))`, `max_props = max(5, int(words / 100))`;
for a non-negative integer, Python's `int(a / b)` is floor division. -/

/-- Lower target bound for a chunk or section of `words` words. -/
def min_props (words : Nat) : Nat := max 3 (words / 150)

/-- Upper target bound for a chunk or section of `words` words. -/
def max_props (words : Nat) : Nat := max 5 (words / 100)

/-! ## Phase-2 renumbering (`llm_client.py`, `run_phase_2`)

The generation engine is out of scope: its per-section outputs are inputs
here.  `engineProps` has one entry per section, the concatenation of that
section's chunk outputs in chunk order (chunks are processed strictly
sequentially and extended into `section_props` in order, lines 224-299).
`engineTks` has one entry per section (the synthesis call output). -/

/-- The renumbering loop at `llm_client.py` lines 362-366: Python
`enumerate(section_props, start=1)` assigning
`f"{chapter_id}_{section.unit_id}_p{idx:03d}"` to each proposition. -/
def renumberFrom (chapterId unitId : String) : Nat → List Proposition → List Proposition
  | _, [] => []
  | i, p :: rest =>
    { p with proposition_id := propId chapterId unitId i } ::
      renumberFrom chapterId unitId (i + 1) rest

/-- Renumbering of one section's accumulated propositions. -/
def renumberSection (chapterId : String) (s : Sec) (props : List Proposition) :
    List Proposition :=
  renumberFrom chapterId s.unit_id 1 props

/-- The section loop of `run_phase_2` (lines 209-370): per section, the
engine output is renumbered and extended onto `all_propositions`. -/
def extractPropositions (chapterId : String) (sections : List Sec)
    (engineOut : List (List Proposition)) : List Proposition :=
  ((sections.zip engineOut).map (fun se => renumberSection chapterId se.1 se.2)).flatten

/-- The takeaway renumbering loop at `llm_client.py` lines 465-468:
`enumerate(all_takeaways, start=1)` assigning `f"{chapter_id}_t{idx:03d}"`. -/
def renumberTakeawaysFrom (chapterId : String) : Nat → List KeyTakeaway → List KeyTakeaway
  | _, [] => []
  | i, t :: rest =>
    { t with takeaway_id := takeawayId chapterId i } ::
      renumberTakeawaysFrom chapterId (i + 1) rest

/-- The takeaway accumulation loop (lines 384-463): propositions are
grouped by their `unit_id` field; a section whose group is empty is
skipped, otherwise the engine's takeaways for it are appended. -/
def rawTakeaways (chapterId : String) (sections : List Sec)
    (engineProps : List (List Proposition)) (engineTks : List (List KeyTakeaway)) :
    List KeyTakeaway :=
  ((sections.zip engineTks).map (fun st =>
    if (extractPropositions chapterId sections engineProps).filter
        (fun p => p.unit_id = st.1.unit_id) = [] then []
    else st.2)).flatten

/-- Assembly of the Phase 2 output (`run_phase_2` lines 473-477); the
`notes` field is never set. -/
def runPhase2 (chapterId : String) (sections : List Sec)
    (engineProps : List (List Proposition)) (engineTks : List (List KeyTakeaway)) :
    Phase2Output :=
  { propositions := extractPropositions chapterId sections engineProps
    key_takeaways :=
      renumberTakeawaysFrom chapterId 1 (rawTakeaways chapterId sections engineProps engineTks)
    notes := none }

/-- Sample data for concrete evaluations. -/
def secA : Sec := ⟨"1.1", "Intro", 1, none, none, none⟩

/-- Sample data for concrete evaluations. -/
def secB : Sec := ⟨"1.2", "Body", 1, none, none, none⟩

/-- A raw engine proposition with an engine-chosen id. -/
def rawProp (id u : String) : Proposition :=
  ⟨id, "ch01", u, "some fact", .remember, "define", "p1", "explicit", []⟩

/-- A raw engine takeaway with an engine-chosen id. -/
def rawTk (id : String) (pids : List String) : KeyTakeaway :=
  ⟨id, "ch01", some "1.1", "a synthesis", pids, some .analyze, []⟩

/-! ## Relational store (`src/db/connection.py`)

The SQLite database is modelled as lists of rows in insertion order.
The schema file (`schema.sql`) is not among the sources; the relational
constraints (primary keys, foreign keys, cascading delete) are modelled
from the spec (§6) where noted. -/

structure ChapterRow where
  book_id : String
  chapter_id : String
  chapter_title : String
  summary : String
  schema_version : String
deriving DecidableEq, Repr

structure SectionRow where
  chapter_id : String
  unit_id : String
  title : String
  level : Int
  parent_unit_id : Option String
  start_location : Option String
  end_location : Option String
deriving DecidableEq, Repr

structure EntityRow where
  chapter_id : String
  name : String
  type : String
deriving DecidableEq, Repr

structure KeywordRow where
  chapter_id : String
  keyword : String
deriving DecidableEq, Repr

structure PropRow where
  id : String
  chapter_id : String
  unit_id : String
  proposition_text : String
  bloom_level : PropositionBloom
  bloom_verb : String
  evidence_location : String
  source_type : String
deriving DecidableEq, Repr

structure PropTagRow where
  proposition_id : String
  tag : String
deriving DecidableEq, Repr

structure TakeawayRow where
  id : String
  chapter_id : String
  unit_id : Option String
  text : String
  dominant_bloom_level : Option TakeawayBloom
deriving DecidableEq, Repr

structure TkPropRow where
  takeaway_id : String
  proposition_id : String
deriving DecidableEq, Repr

structure TkTagRow where
  takeaway_id : String
  tag : String
deriving DecidableEq, Repr

/-- The whole database: one list of rows per table, in insertion order. -/
structure Store where
  chapters : List ChapterRow
  sections : List SectionRow
  entities : List EntityRow
  keywords : List KeywordRow
  propositions : List PropRow
  proposition_tags : List PropTagRow
  key_takeaways : List TakeawayRow
  takeaway_propositions : List TkPropRow
  takeaway_tags : List TkTagRow
deriving DecidableEq, Repr

def emptyStore : Store := ⟨[], [], [], [], [], [], [], [], []⟩

/-! ## Save-time validation (`connection.py` lines 78-103) -/

/-- One `ValueError` as raised by the validation block (lines 87, 94, 103). -/
inductive SaveError
  | propBadUnit (proposition_id unit_id : String)
  | tkBadUnit (takeaway_id unit_id : String)
  | tkBadRefs (takeaway_id : String) (invalid_refs : List String)
deriving DecidableEq, Repr

/-- Model of `valid_unit_ids` (line 79): the chapter's section unit ids. -/
def validUnitIds (c : ChapterAnalysis) : List String :=
  c.phase1.sections.map Sec.unit_id

/-- Model of `valid_prop_ids` (line 97): the chapter's proposition ids. -/
def validPropIds (c : ChapterAnalysis) : List String :=
  c.phase2.propositions.map Proposition.proposition_id

/-- The condition of line 91, `if takeaway.unit_id and takeaway.unit_id
not in valid_unit_ids`: by Python truthiness, `None` **and the empty
string** skip the membership check. -/
def tkUnitViolation (c : ChapterAnalysis) (t : KeyTakeaway) : Bool :=
  match t.unit_id with
  | none => false
  | some u => if u = "" then false else decide (u ∉ validUnitIds c)

/-- Model of `invalid_refs` (line 99): a takeaway's dangling proposition ids. -/
def tkInvalidRefs (c : ChapterAnalysis) (t : KeyTakeaway) : List String :=
  t.proposition_ids.filter (fun pid => decide (pid ∉ validPropIds c))

/-- The validation block of `save_chapter_analysis` (lines 78-103): three
scans, each raising on its **first** offending element. -/
def saveValidationError (c : ChapterAnalysis) : Option SaveError :=
  match c.phase2.propositions.find? (fun p => decide (p.unit_id ∉ validUnitIds c)) with
  | some p => some (.propBadUnit p.proposition_id p.unit_id)
  | none =>
    match c.phase2.key_takeaways.find? (tkUnitViolation c) with
    | some t => some (.tkBadUnit t.takeaway_id (t.unit_id.getD ""))
    | none =>
      match c.phase2.key_takeaways.find? (fun t => decide (tkInvalidRefs c t ≠ [])) with
      | some t => some (.tkBadRefs t.takeaway_id (tkInvalidRefs c t))
      | none => none

/-- Modelled from the spec: "a ValidationError is raised listing every
invariant violation found in §3 (not just the first)" — the full
enumeration, in the same scan order as the code's validator, of the
violations that validator is concerned with (invariants 1-3). -/
def specViolations (c : ChapterAnalysis) : List SaveError :=
  (c.phase2.propositions.filter (fun p => decide (p.unit_id ∉ validUnitIds c))).map
      (fun p => .propBadUnit p.proposition_id p.unit_id)
    ++ (c.phase2.key_takeaways.filter (tkUnitViolation c)).map
      (fun t => .tkBadUnit t.takeaway_id (t.unit_id.getD ""))
    ++ (c.phase2.key_takeaways.filter (fun t => decide (tkInvalidRefs c t ≠ []))).map
      (fun t => .tkBadRefs t.takeaway_id (tkInvalidRefs c t))

/-! ## The data-model invariants of spec §3 -/

/-- Invariant 1: every proposition's `unit_id` names a section. -/
def Inv1 (c : ChapterAnalysis) : Prop :=
  ∀ p ∈ c.phase2.propositions, p.unit_id ∈ validUnitIds c

/-- Invariant 2: every non-null takeaway `unit_id` names a section. -/
def Inv2 (c : ChapterAnalysis) : Prop :=
  ∀ t ∈ c.phase2.key_takeaways, ∀ u, t.unit_id = some u → u ∈ validUnitIds c

/-- The weakening of invariant 2 the code actually checks: the empty
string is Python-falsy, so `unit_id = ""` escapes the check. -/
def Inv2Truthy (c : ChapterAnalysis) : Prop :=
  ∀ t ∈ c.phase2.key_takeaways, ∀ u, t.unit_id = some u → u ≠ "" → u ∈ validUnitIds c

/-- Invariant 3: every takeaway proposition reference resolves. -/
def Inv3 (c : ChapterAnalysis) : Prop :=
  ∀ t ∈ c.phase2.key_takeaways, ∀ pid ∈ t.proposition_ids, pid ∈ validPropIds c

/-- Invariant 4: proposition and takeaway ids are unique in the chapter. -/
def Inv4 (c : ChapterAnalysis) : Prop :=
  (c.phase2.propositions.map Proposition.proposition_id).Nodup ∧
    (c.phase2.key_takeaways.map KeyTakeaway.takeaway_id).Nodup

/-- The propositions and takeaways all carry the aggregate's chapter id
(the inserts at lines 161-173 and 184-193 use the entity's own
`chapter_id` field, not the aggregate's). -/
def carriesChapterId (c : ChapterAnalysis) : Prop :=
  (∀ p ∈ c.phase2.propositions, p.chapter_id = c.chapter_id) ∧
    (∀ t ∈ c.phase2.key_takeaways, t.chapter_id = c.chapter_id)

/-! ## Row construction (`save_chapter_analysis` insertion phase) -/

/-- Chapter metadata row (lines 113-123). -/
def chapterRow (c : ChapterAnalysis) : ChapterRow :=
  ⟨c.book_id, c.chapter_id, c.chapter_title, c.phase1.summary, c.schema_version⟩

/-- The section row inserted for section `s` of chapter `cid`. -/
def toSectionRow (cid : String) (s : Sec) : SectionRow :=
  ⟨cid, s.unit_id, s.title, s.level, s.parent_unit_id,
    s.start_location, s.end_location⟩

/-- Section rows (lines 125-138); `chapter_id` is the aggregate's. -/
def sectionRows (c : ChapterAnalysis) : List SectionRow :=
  c.phase1.sections.map (toSectionRow c.chapter_id)

/-- Entity rows (lines 140-145). -/
def entityRows (c : ChapterAnalysis) : List EntityRow :=
  c.phase1.key_entities.map (fun e => ⟨c.chapter_id, e.name, e.type⟩)

/-- Keyword rows (lines 147-152). -/
def keywordRows (c : ChapterAnalysis) : List KeywordRow :=
  c.phase1.keywords.map (fun k => ⟨c.chapter_id, k⟩)

/-- The row inserted for proposition `p` (its own `chapter_id`). -/
def toPropRow (p : Proposition) : PropRow :=
  ⟨p.proposition_id, p.chapter_id, p.unit_id, p.proposition_text,
    p.bloom_level, p.bloom_verb, p.evidence_location, p.source_type⟩

/-- Proposition rows (lines 154-173); note the row's `chapter_id` is the
proposition's own field, not the aggregate's. -/
def propRows (c : ChapterAnalysis) : List PropRow :=
  c.phase2.propositions.map toPropRow

/-- Proposition tag rows (lines 175-180), per proposition in order. -/
def propTagRows (c : ChapterAnalysis) : List PropTagRow :=
  (c.phase2.propositions.map (fun p =>
    p.tags.map (fun tg => (⟨p.proposition_id, tg⟩ : PropTagRow)))).flatten

/-- The row inserted for takeaway `t` (its own `chapter_id`). -/
def toTakeawayRow (t : KeyTakeaway) : TakeawayRow :=
  ⟨t.takeaway_id, t.chapter_id, t.unit_id, t.text, t.dominant_bloom_level⟩

/-- Takeaway rows (lines 182-193); `chapter_id` is the takeaway's own. -/
def takeawayRows (c : ChapterAnalysis) : List TakeawayRow :=
  c.phase2.key_takeaways.map toTakeawayRow

/-- Takeaway-proposition join rows (lines 195-200). -/
def tkPropRows (c : ChapterAnalysis) : List TkPropRow :=
  (c.phase2.key_takeaways.map (fun t =>
    t.proposition_ids.map (fun pid => (⟨t.takeaway_id, pid⟩ : TkPropRow)))).flatten

/-- Takeaway tag rows (lines 202-207). -/
def tkTagRows (c : ChapterAnalysis) : List TkTagRow :=
  (c.phase2.key_takeaways.map (fun t =>
    t.tags.map (fun tg => (⟨t.takeaway_id, tg⟩ : TkTagRow)))).flatten

/-- Appending one chapter's rows to every table. -/
def insertChapterRows (s : Store) (c : ChapterAnalysis) : Store :=
  { chapters := s.chapters ++ [chapterRow c]
    sections := s.sections ++ sectionRows c
    entities := s.entities ++ entityRows c
    keywords := s.keywords ++ keywordRows c
    propositions := s.propositions ++ propRows c
    proposition_tags := s.proposition_tags ++ propTagRows c
    key_takeaways := s.key_takeaways ++ takeawayRows c
    takeaway_propositions := s.takeaway_propositions ++ tkPropRows c
    takeaway_tags := s.takeaway_tags ++ tkTagRows c }

/-- The proposition ids a cascading delete of chapter `cid` removes. -/
def deadPropIds (s : Store) (cid : String) : List String :=
  (s.propositions.filter (fun r => decide (r.chapter_id = cid))).map PropRow.id

/-- The takeaway ids a cascading delete of chapter `cid` removes. -/
def deadTkIds (s : Store) (cid : String) : List String :=
  (s.key_takeaways.filter (fun r => decide (r.chapter_id = cid))).map TakeawayRow.id

/-- Modelled from the spec (§3 lifecycle, §6): `DELETE FROM chapters
WHERE chapter_id = ?` removes the chapter row, and the `ON DELETE
CASCADE` foreign keys remove all dependent rows, transitively through
propositions and takeaways for the tag and join tables. -/
def deleteChapterRows (s : Store) (cid : String) : Store :=
  let deadProps := deadPropIds s cid
  let deadTks := deadTkIds s cid
  { chapters := s.chapters.filter (fun r => decide (r.chapter_id ≠ cid))
    sections := s.sections.filter (fun r => decide (r.chapter_id ≠ cid))
    entities := s.entities.filter (fun r => decide (r.chapter_id ≠ cid))
    keywords := s.keywords.filter (fun r => decide (r.chapter_id ≠ cid))
    propositions := s.propositions.filter (fun r => decide (r.chapter_id ≠ cid))
    proposition_tags := s.proposition_tags.filter (fun r => decide (r.proposition_id ∉ deadProps))
    key_takeaways := s.key_takeaways.filter (fun r => decide (r.chapter_id ≠ cid))
    takeaway_propositions := s.takeaway_propositions.filter
      (fun r => decide (r.takeaway_id ∉ deadTks ∧ r.proposition_id ∉ deadProps))
    takeaway_tags := s.takeaway_tags.filter (fun r => decide (r.takeaway_id ∉ deadTks)) }

/-- Model of `delete_chapter` (`connection.py` lines 382-414): it issues the
DELETE (whose cascade is modelled by `deleteChapterRows`) and returns
`True`; the affected row count is never inspected, so the result is
`True` whether or not a chapter with this id existed. -/
def delete_chapter (s : Store) (cid : String) : Store × Bool :=
  (deleteChapterRows s cid, true)

/-- Modelled from the spec (§6: the tables are keyed on
`chapter_id`/`proposition_id`/`takeaway_id` and foreign-keyed with
enforcement on — `get_connection` sets `PRAGMA foreign_keys = ON`): the
constraints the insertion transaction must satisfy.  A violation makes
some `INSERT` raise, which the `except` block turns into rollback and
`False`. -/
def insertionsOk (s : Store) (c : ChapterAnalysis) : Prop :=
  c.chapter_id ∉ s.chapters.map ChapterRow.chapter_id
  ∧ (c.phase1.sections.map Sec.unit_id).Nodup
  ∧ (c.phase2.propositions.map Proposition.proposition_id).Nodup
  ∧ (∀ p ∈ c.phase2.propositions, p.proposition_id ∉ s.propositions.map PropRow.id)
  ∧ (c.phase2.key_takeaways.map KeyTakeaway.takeaway_id).Nodup
  ∧ (∀ t ∈ c.phase2.key_takeaways, t.takeaway_id ∉ s.key_takeaways.map TakeawayRow.id)
  ∧ (∀ p ∈ c.phase2.propositions,
      p.chapter_id = c.chapter_id ∨ p.chapter_id ∈ s.chapters.map ChapterRow.chapter_id)
  ∧ (∀ t ∈ c.phase2.key_takeaways,
      t.chapter_id = c.chapter_id ∨ t.chapter_id ∈ s.chapters.map ChapterRow.chapter_id)

instance (s : Store) (c : ChapterAnalysis) : Decidable (insertionsOk s c) := by
  unfold insertionsOk; exact inferInstance

/-- The store the insertion phase writes into: lines 105-111 delete any
existing version of the chapter first, within the same transaction. -/
def saveTarget (s : Store) (c : ChapterAnalysis) : Store :=
  if c.chapter_id ∈ s.chapters.map ChapterRow.chapter_id
    then deleteChapterRows s c.chapter_id else s

/-- Model of `save_chapter_analysis` (`connection.py` lines 59-221): validate
(a `ValueError` reaches the `except` block: rollback, `False`); delete
any existing version of the chapter inside the same transaction (lines
105-111); insert all rows; an insertion error also rolls the whole
transaction back, returning `False` with the store unchanged; success
commits and returns `True`. -/
def save_chapter_analysis (s : Store) (c : ChapterAnalysis) : Store × Bool :=
  match saveValidationError c with
  | some _ => (s, false)
  | none =>
    if insertionsOk (saveTarget s c) c
      then (insertChapterRows (saveTarget s c) c, true) else (s, false)

/-! ## Load (`connection.py` lines 224-340) -/

/-- SQLite's BINARY collation on text values: lexicographic byte order,
which on UTF-8 data is lexicographic code-point order. -/
def lexLEB : List Char → List Char → Bool
  | [], _ => true
  | _ :: _, [] => false
  | a :: as, b :: bs =>
    if a.toNat < b.toNat then true
    else if a.toNat = b.toNat then lexLEB as bs
    else false

/-- Text comparison used by `ORDER BY` on id columns. -/
def strLE (a b : String) : Prop := lexLEB a.data b.data = true

instance (a b : String) : Decidable (strLE a b) := by
  unfold strLE; exact inferInstance

/-- The relation of `ORDER BY level, unit_id` (line 247). -/
def secRowLE (a b : SectionRow) : Prop :=
  a.level < b.level ∨ (a.level = b.level ∧ strLE a.unit_id b.unit_id)

instance : DecidableRel secRowLE := fun a b => by
  unfold secRowLE; exact inferInstance

/-- The relation of `ORDER BY id` for propositions (line 272). -/
def propRowLE (a b : PropRow) : Prop := strLE a.id b.id

instance : DecidableRel propRowLE := fun a b => by
  unfold propRowLE; exact inferInstance

/-- The relation of `ORDER BY id` for takeaways (line 292). -/
def tkRowLE (a b : TakeawayRow) : Prop := strLE a.id b.id

instance : DecidableRel tkRowLE := fun a b => by
  unfold tkRowLE; exact inferInstance

/-- Rebuilding a `Section` model from its row (lines 248-258). -/
def rowToSec (r : SectionRow) : Sec :=
  ⟨r.unit_id, r.title, r.level, r.parent_unit_id, r.start_location, r.end_location⟩

/-- Rebuilding a `Proposition` from its row, refetching its tags from
the tag side-table in table order (lines 271-289). -/
def loadProp (s : Store) (r : PropRow) : Proposition :=
  { proposition_id := r.id
    chapter_id := r.chapter_id
    unit_id := r.unit_id
    proposition_text := r.proposition_text
    bloom_level := r.bloom_level
    bloom_verb := r.bloom_verb
    evidence_location := r.evidence_location
    source_type := r.source_type
    tags :=
      (s.proposition_tags.filter
        (fun tr => decide (tr.proposition_id = r.id))).map PropTagRow.tag }

/-- Rebuilding a `KeyTakeaway` from its row, refetching its proposition
links and tags from the join tables in table order (lines 291-313). -/
def loadTk (s : Store) (r : TakeawayRow) : KeyTakeaway :=
  { takeaway_id := r.id
    chapter_id := r.chapter_id
    unit_id := r.unit_id
    text := r.text
    proposition_ids :=
      (s.takeaway_propositions.filter
        (fun jr => decide (jr.takeaway_id = r.id))).map TkPropRow.proposition_id
    dominant_bloom_level := r.dominant_bloom_level
    tags :=
      (s.takeaway_tags.filter
        (fun tr => decide (tr.takeaway_id = r.id))).map TkTagRow.tag }

/-- The aggregate assembled from the chapter row and the tables
(lines 246-331). -/
def assembleChapter (s : Store) (cid : String) (ch : ChapterRow) : ChapterAnalysis :=
  { schema_version := ch.schema_version
    book_id := ch.book_id
    chapter_id := ch.chapter_id
    chapter_title := ch.chapter_title
    phase1 :=
      { summary := ch.summary
        sections :=
          (List.insertionSort secRowLE
            (s.sections.filter (fun r => decide (r.chapter_id = cid)))).map rowToSec
        key_entities :=
          (s.entities.filter (fun r => decide (r.chapter_id = cid))).map
            (fun r => (⟨r.name, r.type⟩ : Entity))
        keywords :=
          (s.keywords.filter (fun r => decide (r.chapter_id = cid))).map
            KeywordRow.keyword }
    phase2 :=
      { propositions :=
          (List.insertionSort propRowLE
            (s.propositions.filter (fun r => decide (r.chapter_id = cid)))).map
            (loadProp s)
        key_takeaways :=
          (List.insertionSort tkRowLE
            (s.key_takeaways.filter (fun r => decide (r.chapter_id = cid)))).map
            (loadTk s)
        notes := none } }

/-- Model of `load_chapter_analysis` (lines 224-340): `None` when the chapter row
is absent; otherwise the aggregate is reassembled — sections ordered by
`(level, unit_id)`, propositions and takeaways ordered by `id`, tags and
join rows refetched per parent in table order; `notes` is not stored, so
it is always `None` after a load. -/
def load_chapter_analysis (s : Store) (cid : String) : Option ChapterAnalysis :=
  (s.chapters.find? (fun r => decide (r.chapter_id = cid))).map (assembleChapter s cid)

/-! ## Store well-formedness (the spec-modelled schema constraints) -/

/-- Modelled from the spec (§6): key uniqueness and referential
integrity of the store — what the primary keys and foreign keys of the
missing schema file guarantee of any reachable database state. -/
def Store.WF (s : Store) : Prop :=
  (s.chapters.map ChapterRow.chapter_id).Nodup
  ∧ (s.propositions.map PropRow.id).Nodup
  ∧ (s.key_takeaways.map TakeawayRow.id).Nodup
  ∧ (∀ r ∈ s.sections, r.chapter_id ∈ s.chapters.map ChapterRow.chapter_id)
  ∧ (∀ r ∈ s.entities, r.chapter_id ∈ s.chapters.map ChapterRow.chapter_id)
  ∧ (∀ r ∈ s.keywords, r.chapter_id ∈ s.chapters.map ChapterRow.chapter_id)
  ∧ (∀ r ∈ s.propositions, r.chapter_id ∈ s.chapters.map ChapterRow.chapter_id)
  ∧ (∀ r ∈ s.proposition_tags, r.proposition_id ∈ s.propositions.map PropRow.id)
  ∧ (∀ r ∈ s.key_takeaways, r.chapter_id ∈ s.chapters.map ChapterRow.chapter_id)
  ∧ (∀ r ∈ s.takeaway_propositions,
      r.takeaway_id ∈ s.key_takeaways.map TakeawayRow.id ∧
        r.proposition_id ∈ s.propositions.map PropRow.id)
  ∧ (∀ r ∈ s.takeaway_tags, r.takeaway_id ∈ s.key_takeaways.map TakeawayRow.id)

instance (s : Store) : Decidable s.WF := by
  unfold Store.WF; exact inferInstance

/-- No table holds a row belonging to chapter `cid`. -/
def noChapterRows (s : Store) (cid : String) : Prop :=
  (∀ r ∈ s.chapters, r.chapter_id ≠ cid)
  ∧ (∀ r ∈ s.sections, r.chapter_id ≠ cid)
  ∧ (∀ r ∈ s.entities, r.chapter_id ≠ cid)
  ∧ (∀ r ∈ s.keywords, r.chapter_id ≠ cid)
  ∧ (∀ r ∈ s.propositions, r.chapter_id ≠ cid)
  ∧ (∀ r ∈ s.key_takeaways, r.chapter_id ≠ cid)

instance (s : Store) (cid : String) : Decidable (noChapterRows s cid) := by
  unfold noChapterRows; exact inferInstance

/-! ## The orchestrator's storage stage (`graff_orchestrator.py` 151-162) -/

/-- The storage stage of `digest_chapter_graff`: a `False` return from
`save_chapter_analysis` raises `StorageError("Database save returned
False")`, which the surrounding handler rewraps as
`StorageError(f"Failed to save to database: {e}")`. -/
def storageStage (s : Store) (c : ChapterAnalysis) : Except String Store :=
  let r := save_chapter_analysis s c
  if r.2 then Except.ok r.1
  else Except.error "Failed to save to database: Database save returned False"

/-! ## Field-level equality up to tag order (spec §8, round-trip claim) -/

/-- Proposition equality up to reordering of `tags`. -/
def propEqUpToTags (p q : Proposition) : Bool :=
  p.proposition_id = q.proposition_id ∧ p.chapter_id = q.chapter_id
    ∧ p.unit_id = q.unit_id ∧ p.proposition_text = q.proposition_text
    ∧ p.bloom_level = q.bloom_level ∧ p.bloom_verb = q.bloom_verb
    ∧ p.evidence_location = q.evidence_location ∧ p.source_type = q.source_type
    ∧ p.tags.Perm q.tags

/-- Takeaway equality up to reordering of `tags` (the ordered
`proposition_ids` list must match exactly). -/
def tkEqUpToTags (t u : KeyTakeaway) : Bool :=
  t.takeaway_id = u.takeaway_id ∧ t.chapter_id = u.chapter_id
    ∧ t.unit_id = u.unit_id ∧ t.text = u.text
    ∧ t.proposition_ids = u.proposition_ids
    ∧ t.dominant_bloom_level = u.dominant_bloom_level
    ∧ t.tags.Perm u.tags

/-- Pointwise comparison of two lists. -/
def forall2B {α β : Type} (f : α → β → Bool) : List α → List β → Bool
  | [], [] => true
  | a :: as, b :: bs => f a b && forall2B f as bs
  | _, _ => false

/-- Graph equality up to field-level equality where only the order of
`tags` within an entity may differ and all list orders are preserved —
the equivalence the round-trip claim of spec §8 asserts. -/
def chapterEqUpToTags (x y : ChapterAnalysis) : Bool :=
  x.schema_version = y.schema_version ∧ x.book_id = y.book_id
    ∧ x.chapter_id = y.chapter_id ∧ x.chapter_title = y.chapter_title
    ∧ x.phase1.summary = y.phase1.summary
    ∧ x.phase1.sections = y.phase1.sections
    ∧ x.phase1.key_entities = y.phase1.key_entities
    ∧ x.phase1.keywords = y.phase1.keywords
    ∧ forall2B propEqUpToTags x.phase2.propositions y.phase2.propositions = true
    ∧ forall2B tkEqUpToTags x.phase2.key_takeaways y.phase2.key_takeaways = true
    ∧ x.phase2.notes = y.phase2.notes

/-! ## Decidability of the invariants -/

instance decOptForall {P : String → Prop} [DecidablePred P] (x : Option String) :
    Decidable (∀ u, x = some u → P u) :=
  match x with
  | none => isTrue (by intro u h; cases h)
  | some v =>
    decidable_of_iff (P v) (by
      constructor
      · intro h u hu
        cases hu
        exact h
      · intro h
        exact h v rfl)

instance (c : ChapterAnalysis) : Decidable (Inv1 c) := by
  unfold Inv1; exact inferInstance

instance (c : ChapterAnalysis) : Decidable (Inv2 c) := by
  unfold Inv2; exact inferInstance

instance (c : ChapterAnalysis) : Decidable (Inv2Truthy c) := by
  unfold Inv2Truthy; exact inferInstance

instance (c : ChapterAnalysis) : Decidable (Inv3 c) := by
  unfold Inv3; exact inferInstance

instance (c : ChapterAnalysis) : Decidable (Inv4 c) := by
  unfold Inv4; exact inferInstance

instance (c : ChapterAnalysis) : Decidable (carriesChapterId c) := by
  unfold carriesChapterId; exact inferInstance

/-! ## Concrete chapters for evaluation -/

/-- A well-formed chapter, stored in exactly the order load returns. -/
def chOK : ChapterAnalysis :=
  { schema_version := "1.0", book_id := "book", chapter_id := "ch01", chapter_title := "T"
    phase1 :=
      { summary := "s"
        sections := [⟨"1.1", "Intro", 1, none, none, none⟩]
        key_entities := [⟨"Zukor", "person"⟩]
        keywords := ["film"] }
    phase2 :=
      { propositions :=
          [⟨"ch01_1.1_p001", "ch01", "1.1", "f1", .remember, "define", "p1", "explicit", ["t1"]⟩,
           ⟨"ch01_1.1_p002", "ch01", "1.1", "f2", .understand, "explain", "p2", "explicit", []⟩]
        key_takeaways :=
          [⟨"ch01_t001", "ch01", some "1.1", "syn",
            ["ch01_1.1_p001", "ch01_1.1_p002"], some .analyze, ["th"]⟩]
        notes := none } }

/-- A second version of chapter `ch01` with different content. -/
def chOK2 : ChapterAnalysis :=
  { schema_version := "1.0", book_id := "book", chapter_id := "ch01", chapter_title := "T2"
    phase1 :=
      { summary := "s2"
        sections := [⟨"1.1", "Intro", 1, none, none, none⟩]
        key_entities := []
        keywords := [] }
    phase2 :=
      { propositions :=
          [⟨"ch01_1.1_p001", "ch01", "1.1", "other fact", .apply, "use", "p1", "explicit", []⟩]
        key_takeaways := []
        notes := none } }

/-- A chapter whose two propositions share one id (invariant 4 broken). -/
def chDup : ChapterAnalysis :=
  { schema_version := "1.0", book_id := "book", chapter_id := "ch01", chapter_title := "T"
    phase1 :=
      { summary := "s"
        sections := [⟨"1.1", "Intro", 1, none, none, none⟩]
        key_entities := []
        keywords := [] }
    phase2 :=
      { propositions :=
          [⟨"dup", "ch01", "1.1", "f1", .remember, "define", "p1", "explicit", []⟩,
           ⟨"dup", "ch01", "1.1", "f2", .remember, "define", "p2", "explicit", []⟩]
        key_takeaways := []
        notes := none } }

/-- A chapter whose takeaway has the Python-falsy unit id `""`. -/
def chEmptyUnit : ChapterAnalysis :=
  { schema_version := "1.0", book_id := "book", chapter_id := "ch01", chapter_title := "T"
    phase1 :=
      { summary := "s"
        sections := [⟨"1.1", "Intro", 1, none, none, none⟩]
        key_entities := []
        keywords := [] }
    phase2 :=
      { propositions :=
          [⟨"ch01_1.1_p001", "ch01", "1.1", "f1", .remember, "define", "p1", "explicit", []⟩]
        key_takeaways :=
          [⟨"ch01_t001", "ch01", some "", "syn", ["ch01_1.1_p001"], some .analyze, []⟩]
        notes := none } }

/-- A chapter whose takeaway has an empty `proposition_ids` list. -/
def chTkEmpty : ChapterAnalysis :=
  { schema_version := "1.0", book_id := "book", chapter_id := "ch01", chapter_title := "T"
    phase1 :=
      { summary := "s"
        sections := [⟨"1.1", "Intro", 1, none, none, none⟩]
        key_entities := []
        keywords := [] }
    phase2 :=
      { propositions :=
          [⟨"ch01_1.1_p001", "ch01", "1.1", "f1", .remember, "define", "p1", "explicit", []⟩]
        key_takeaways :=
          [⟨"ch01_t001", "ch01", some "1.1", "syn", [], some .analyze, []⟩]
        notes := none } }

/-- A valid chapter whose propositions are not in lexicographic id order. -/
def chUnsorted : ChapterAnalysis :=
  { schema_version := "1.0", book_id := "book", chapter_id := "ch01", chapter_title := "T"
    phase1 :=
      { summary := "s"
        sections := [⟨"1.1", "Intro", 1, none, none, none⟩]
        key_entities := []
        keywords := [] }
    phase2 :=
      { propositions :=
          [⟨"ch01_1.1_p002", "ch01", "1.1", "f2", .remember, "define", "p2", "explicit", []⟩,
           ⟨"ch01_1.1_p001", "ch01", "1.1", "f1", .remember, "define", "p1", "explicit", []⟩]
        key_takeaways := []
        notes := none } }

/-- A chapter with two propositions referencing unknown sections. -/
def chTwoBad : ChapterAnalysis :=
  { schema_version := "1.0", book_id := "book", chapter_id := "ch01", chapter_title := "T"
    phase1 :=
      { summary := "s"
        sections := [⟨"1.1", "Intro", 1, none, none, none⟩]
        key_entities := []
        keywords := [] }
    phase2 :=
      { propositions :=
          [⟨"p1", "ch01", "bogus1", "f1", .remember, "define", "p1", "explicit", []⟩,
           ⟨"p2", "ch01", "bogus2", "f2", .remember, "define", "p2", "explicit", []⟩]
        key_takeaways := []
        notes := none } }


/-! # Theorems -/

theorem natDigitsAux_fuel_irrel :
    ∀ f₁ f₂ n, n < f₁ → n < f₂ → natDigitsAux f₁ n = natDigitsAux f₂ n := by
  intro f₁
  induction f₁ with
  | zero => intro f₂ n h; omega
  | succ f ih =>
    intro f₂ n h₁ h₂
    match f₂, h₂ with
    | f₂ + 1, h₂ =>
      simp only [natDigitsAux]
      by_cases h10 : n < 10
      · simp [h10]
      · have hd : n / 10 < n := Nat.div_lt_self (by omega) (by omega)
        simp only [h10, if_false]
        rw [ih f₂ (n / 10) (by omega) (by omega)]

theorem natDigits_eq (n : Nat) :
    natDigits n =
      if n < 10 then [digitChar n]
      else natDigits (n / 10) ++ [digitChar (n % 10)] := by
  have hstep : natDigitsAux (n + 1) n =
      if n < 10 then [digitChar n]
      else natDigitsAux n (n / 10) ++ [digitChar (n % 10)] := rfl
  show natDigitsAux (n + 1) n = _
  rw [hstep]
  by_cases h10 : n < 10
  · simp [h10]
  · have hd : n / 10 < n := Nat.div_lt_self (by omega) (by omega)
    simp only [h10, if_false]
    rw [natDigitsAux_fuel_irrel n (n / 10 + 1) (n / 10) (by omega) (by omega)]
    rfl

theorem digitChar_isDigit {d : Nat} : (digitChar d).isDigit = true := by
  unfold digitChar
  repeat' split
  all_goals decide

theorem digitChar_toNat {d : Nat} (h : d < 10) : (digitChar d).toNat = 48 + d := by
  unfold digitChar
  repeat' split
  all_goals try (rename_i hk; subst hk; decide)
  have h9 : d = 9 := by omega
  subst h9; decide

theorem natDigits_isDigit (n : Nat) : ∀ c ∈ natDigits n, c.isDigit = true := by
  induction n using Nat.strong_induction_on with
  | _ n ih =>
    rw [natDigits_eq]
    by_cases h10 : n < 10
    · simp [h10, digitChar_isDigit]
    · have hd : n / 10 < n := Nat.div_lt_self (by omega) (by omega)
      simp only [h10, if_false]
      intro c hc
      rcases List.mem_append.mp hc with h | h
      · exact ih (n / 10) hd c h
      · simp only [List.mem_singleton] at h
        subst h; exact digitChar_isDigit

theorem digitsVal_append_singleton (l : List Char) (c : Char) :
    digitsVal (l ++ [c]) = 10 * digitsVal l + (c.toNat - 48) := by
  unfold digitsVal
  rw [List.foldl_append]
  rfl

theorem digitsVal_natDigits (n : Nat) : digitsVal (natDigits n) = n := by
  induction n using Nat.strong_induction_on with
  | _ n ih =>
    rw [natDigits_eq]
    by_cases h10 : n < 10
    · simp only [h10, if_true]
      unfold digitsVal
      simp [digitChar_toNat h10]
    · have hd : n / 10 < n := Nat.div_lt_self (by omega) (by omega)
      simp only [h10, if_false]
      rw [digitsVal_append_singleton, ih (n / 10) hd,
        digitChar_toNat (Nat.mod_lt n (by omega))]
      omega

theorem digitsVal_fmt3 (n : Nat) : digitsVal (fmt3 n) = n := by
  unfold fmt3
  have hz : ∀ k, List.foldl (fun a c => 10 * a + (c.toNat - 48)) 0
      (List.replicate k '0') = 0 := by
    intro k
    induction k with
    | zero => rfl
    | succ k ihk => simpa [List.replicate_succ] using ihk
  unfold digitsVal
  rw [List.foldl_append, hz]
  exact digitsVal_natDigits n

theorem fmt3_injective {n₁ n₂ : Nat} (h : fmt3 n₁ = fmt3 n₂) : n₁ = n₂ := by
  have := digitsVal_fmt3 n₁
  rw [h, digitsVal_fmt3] at this
  omega

theorem fmt3_isDigit (n : Nat) : ∀ c ∈ fmt3 n, c.isDigit = true := by
  intro c hc
  unfold fmt3 at hc
  rcases List.mem_append.mp hc with h | h
  · have := List.eq_of_mem_replicate h
    subst this; decide
  · exact natDigits_isDigit n c h

theorem takeWhile_append_cons {p : Char → Bool} :
    ∀ (l₁ : List Char) (x : Char) (l₂ : List Char),
      (∀ c ∈ l₁, p c = true) → p x = false →
      (l₁ ++ x :: l₂).takeWhile p = l₁ ∧ (l₁ ++ x :: l₂).dropWhile p = x :: l₂ := by
  intro l₁
  induction l₁ with
  | nil =>
    intro x l₂ _ hx
    constructor
    · simp [List.takeWhile, hx]
    · simp [List.dropWhile, hx]
  | cons a l ih =>
    intro x l₂ h₁ hx
    have ha : p a = true := h₁ a (by simp)
    have hrest : ∀ c ∈ l, p c = true := fun c hc => h₁ c (by simp [hc])
    obtain ⟨ht, hd⟩ := ih x l₂ hrest hx
    constructor
    · simp [List.takeWhile, ha, ht]
    · simp [List.dropWhile, ha, hd]

/-- Splitting a string of shape `u ++ "_p" ++ digits` is unambiguous:
the digit block is the maximal digit suffix, preceded by `'p'`. -/
theorem underscore_p_digits_inj {u₁ u₂ d₁ d₂ : List Char}
    (h₁ : ∀ c ∈ d₁, c.isDigit = true) (h₂ : ∀ c ∈ d₂, c.isDigit = true)
    (h : u₁ ++ '_' :: 'p' :: d₁ = u₂ ++ '_' :: 'p' :: d₂) :
    u₁ = u₂ ∧ d₁ = d₂ := by
  have hrev : d₁.reverse ++ 'p' :: '_' :: u₁.reverse
      = d₂.reverse ++ 'p' :: '_' :: u₂.reverse := by
    have := congrArg List.reverse h
    simpa using this
  have hp : ('p').isDigit = false := by decide
  have hrd₁ : ∀ c ∈ d₁.reverse, c.isDigit = true := by
    intro c hc; exact h₁ c (List.mem_reverse.mp hc)
  have hrd₂ : ∀ c ∈ d₂.reverse, c.isDigit = true := by
    intro c hc; exact h₂ c (List.mem_reverse.mp hc)
  obtain ⟨ht₁, hd₁'⟩ := takeWhile_append_cons d₁.reverse 'p' ('_' :: u₁.reverse) hrd₁ hp
  obtain ⟨ht₂, hd₂'⟩ := takeWhile_append_cons d₂.reverse 'p' ('_' :: u₂.reverse) hrd₂ hp
  have hd : d₁.reverse = d₂.reverse := by rw [← ht₁, ← ht₂, hrev]
  have hu : ('p' :: '_' :: u₁.reverse) = ('p' :: '_' :: u₂.reverse) := by
    rw [← hd₁', ← hd₂', hrev]
  refine ⟨?_, ?_⟩
  · have : u₁.reverse = u₂.reverse := by
      injection hu with _ h'; injection h' with _ h''
    simpa using congrArg List.reverse this
  · simpa using congrArg List.reverse hd

theorem propIdChars_inj {ch u₁ u₂ : List Char} {k₁ k₂ : Nat}
    (h : propIdChars ch u₁ k₁ = propIdChars ch u₂ k₂) : u₁ = u₂ ∧ k₁ = k₂ := by
  unfold propIdChars at h
  have h' := List.append_cancel_left h
  have h'' : u₁ ++ '_' :: 'p' :: fmt3 k₁ = u₂ ++ '_' :: 'p' :: fmt3 k₂ := by
    injection h'
  obtain ⟨hu, hd⟩ := underscore_p_digits_inj (fmt3_isDigit k₁) (fmt3_isDigit k₂) h''
  exact ⟨hu, fmt3_injective hd⟩

theorem propId_inj {ch u₁ u₂ : String} {k₁ k₂ : Nat}
    (h : propId ch u₁ k₁ = propId ch u₂ k₂) : u₁ = u₂ ∧ k₁ = k₂ := by
  unfold propId at h
  have hdata : propIdChars ch.data u₁.data k₁ = propIdChars ch.data u₂.data k₂ := by
    injection h
  obtain ⟨hu, hk⟩ := propIdChars_inj hdata
  refine ⟨?_, hk⟩
  cases u₁; cases u₂; simp_all

theorem takeawayId_inj {ch : String} {k₁ k₂ : Nat}
    (h : takeawayId ch k₁ = takeawayId ch k₂) : k₁ = k₂ := by
  unfold takeawayId tkIdChars at h
  have hdata : ch.data ++ '_' :: 't' :: fmt3 k₁ = ch.data ++ '_' :: 't' :: fmt3 k₂ := by
    injection h
  have h' := List.append_cancel_left hdata
  have h'' : fmt3 k₁ = fmt3 k₂ := by
    injection h' with _ h'; injection h' with _ h''
  exact fmt3_injective h''

theorem matchAt_iff {hay needle : List Char} {i : Nat} :
    matchAt hay needle i = true ↔ OccursAt hay needle i := by
  simp [matchAt, OccursAt]

theorem findSubAux_some {hay nd : List Char} :
    ∀ {fuel i j}, findSubAux hay nd fuel i = some j →
      i ≤ j ∧ OccursAt hay nd j ∧ ∀ k < j, i ≤ k → ¬ OccursAt hay nd k := by
  intro fuel
  induction fuel with
  | zero => intro i j h; simp [findSubAux] at h
  | succ f ih =>
    intro i j h
    simp only [findSubAux] at h
    cases hm : matchAt hay nd i with
    | true =>
      rw [hm, if_pos rfl] at h
      cases h
      exact ⟨le_refl _, matchAt_iff.mp hm, fun k hk hk' => by omega⟩
    | false =>
      rw [hm] at h
      simp only [Bool.false_eq_true, if_false] at h
      obtain ⟨h₁, h₂, h₃⟩ := ih h
      refine ⟨by omega, h₂, ?_⟩
      intro k hk hk'
      rcases Nat.eq_or_lt_of_le hk' with heq | hlt
      · subst heq
        intro hocc
        rw [← matchAt_iff] at hocc
        simp [hocc] at hm
      · exact h₃ k hk (by omega)

theorem findSubAux_none {hay nd : List Char} :
    ∀ {fuel i}, findSubAux hay nd fuel i = none →
      ∀ k, i ≤ k → k < i + fuel → ¬ OccursAt hay nd k := by
  intro fuel
  induction fuel with
  | zero => intro i h k hk hk'; omega
  | succ f ih =>
    intro i h k hk hk'
    simp only [findSubAux] at h
    cases hm : matchAt hay nd i with
    | true => rw [hm, if_pos rfl] at h; cases h
    | false =>
      rw [hm] at h
      simp only [Bool.false_eq_true, if_false] at h
      rcases Nat.eq_or_lt_of_le hk with heq | hlt
      · subst heq
        intro hocc
        rw [← matchAt_iff] at hocc
        simp [hocc] at hm
      · exact ih h k (by omega) (by omega)

theorem findSubFrom_some {hay nd : List Char} {s i : Nat}
    (h : findSubFrom hay nd s = some i) : FirstOccur hay nd s i := by
  obtain ⟨h₁, h₂, h₃⟩ := findSubAux_some h
  exact ⟨h₁, h₂, fun k hk hk' => h₃ k hk hk'⟩

theorem findSubFrom_none {hay nd : List Char} {s : Nat}
    (h : findSubFrom hay nd s = none) : ¬ OccursFrom hay nd s := by
  rintro ⟨k, hk, hocc⟩
  by_cases hlt : k < s + (hay.length + 1 - s)
  · exact findSubAux_none h k hk hlt hocc
  · have := hocc.1; omega

theorem FirstOccur_unique {hay nd : List Char} {s i j : Nat}
    (hi : FirstOccur hay nd s i) (hj : FirstOccur hay nd s j) : i = j := by
  rcases lt_trichotomy i j with h | h | h
  · exact absurd hi.2.1 (hj.2.2 i h hi.1)
  · exact h
  · exact absurd hj.2.1 (hi.2.2 j h hj.1)

theorem findSubFrom_of_none {hay nd : List Char} {s : Nat}
    (h : ¬ OccursFrom hay nd s) : findSubFrom hay nd s = none := by
  cases heq : findSubFrom hay nd s with
  | none => rfl
  | some j =>
    obtain ⟨h₁, h₂, _⟩ := findSubFrom_some heq
    exact absurd ⟨j, h₁, h₂⟩ h

theorem findSubFrom_of_first {hay nd : List Char} {s i : Nat}
    (h : FirstOccur hay nd s i) : findSubFrom hay nd s = some i := by
  cases heq : findSubFrom hay nd s with
  | none => exact absurd ⟨i, h.1, h.2.1⟩ (findSubFrom_none heq)
  | some j => rw [FirstOccur_unique (findSubFrom_some heq) h]

theorem sectionSpans_length (ft : List Char) :
    ∀ ss : List Sec, (sectionSpans ft ss).length = ss.length := by
  intro ss
  induction ss with
  | nil => rfl
  | cons s rest ih =>
    cases rest with
    | nil => rfl
    | cons s' r =>
      simp only [sectionSpans, List.length_cons] at ih ⊢
      omega

theorem extractSectionText_not_found {ft t : List Char} {next : Option (List Char)}
    (h₁ : ¬ OccursFrom ft t 0) (h₂ : ¬ OccursFrom (lowerStr ft) (lowerStr t) 0) :
    extractSectionText ft t next = ft := by
  unfold extractSectionText
  rw [findSubFrom_of_none h₁, findSubFrom_of_none h₂]

theorem extractSectionText_found {ft t : List Char} {s : Nat}
    (h : TitleStart ft t s) :
    extractSectionText ft t none = ft.drop s ∧
    ∀ nt, ∃ e, BoundaryEnd ft nt (s + t.length) e ∧
      extractSectionText ft t (some nt) = (ft.drop s).take (e - s) := by
  have hstart :
      (match findSubFrom ft t 0 with
        | some i => some i
        | none => findSubFrom (lowerStr ft) (lowerStr t) 0) = some s := by
    rcases h with h | ⟨hno, h⟩
    · rw [findSubFrom_of_first h]
    · rw [findSubFrom_of_none hno, findSubFrom_of_first h]
  have hsle : s ≤ ft.length := by
    rcases h with h | ⟨_, h⟩
    · have := h.2.1.1; omega
    · have := h.2.1.1
      simp only [lowerStr, List.length_map] at this
      omega
  constructor
  · unfold extractSectionText
    rw [hstart]
    simp only
    apply List.take_of_length_le
    simp
  · intro nt
    cases hcs : findSubFrom ft nt (s + t.length) with
    | some j =>
      refine ⟨j, Or.inl (findSubFrom_some hcs), ?_⟩
      unfold extractSectionText
      rw [hstart]
      simp only [hcs]
    | none =>
      cases hci : findSubFrom (lowerStr ft) (lowerStr nt) (s + t.length) with
      | some j =>
        refine ⟨j, Or.inr (Or.inl ⟨findSubFrom_none hcs, findSubFrom_some hci⟩), ?_⟩
        unfold extractSectionText
        rw [hstart]
        simp only [hcs, hci]
      | none =>
        refine ⟨ft.length,
          Or.inr (Or.inr ⟨findSubFrom_none hcs, findSubFrom_none hci, rfl⟩), ?_⟩
        unfold extractSectionText
        rw [hstart]
        simp only [hcs, hci]

theorem renumberFrom_ids (ch u : String) :
    ∀ (i : Nat) (ps : List Proposition),
      (renumberFrom ch u i ps).map Proposition.proposition_id
        = (List.range ps.length).map (fun j => propId ch u (j + i)) := by
  intro i ps
  induction ps generalizing i with
  | nil => simp [renumberFrom]
  | cons p rest ih =>
    have hr : List.range (rest.length + 1) = 0 :: (List.range rest.length).map (· + 1) :=
      List.range_succ_eq_map rest.length
    rw [List.length_cons, hr, List.map_cons, List.map_map]
    simp only [renumberFrom, List.map_cons, ih (i + 1)]
    congr 1
    · show propId ch u i = propId ch u (0 + i)
      congr 1
      omega
    · congr 1
      funext j
      simp only [Function.comp_apply]
      congr 1
      omega

theorem renumberTakeawaysFrom_ids (ch : String) :
    ∀ (i : Nat) (ts : List KeyTakeaway),
      (renumberTakeawaysFrom ch i ts).map KeyTakeaway.takeaway_id
        = (List.range ts.length).map (fun j => takeawayId ch (j + i)) := by
  intro i ts
  induction ts generalizing i with
  | nil => simp [renumberTakeawaysFrom]
  | cons t rest ih =>
    have hr : List.range (rest.length + 1) = 0 :: (List.range rest.length).map (· + 1) :=
      List.range_succ_eq_map rest.length
    rw [List.length_cons, hr, List.map_cons, List.map_map]
    simp only [renumberTakeawaysFrom, List.map_cons, ih (i + 1)]
    congr 1
    · show takeawayId ch i = takeawayId ch (0 + i)
      congr 1
      omega
    · congr 1
      funext j
      simp only [Function.comp_apply]
      congr 1
      omega

theorem renumberTakeawaysFrom_length (ch : String) :
    ∀ (i : Nat) (ts : List KeyTakeaway),
      (renumberTakeawaysFrom ch i ts).length = ts.length := by
  intro i ts
  induction ts generalizing i with
  | nil => rfl
  | cons t rest ih => simp [renumberTakeawaysFrom, ih (i + 1)]

theorem extractPropositions_ids (ch : String) (sections : List Sec)
    (eng : List (List Proposition)) :
    (extractPropositions ch sections eng).map Proposition.proposition_id
      = ((sections.zip eng).map
          (fun se => (List.range se.2.length).map
            (fun j => propId ch se.1.unit_id (j + 1)))).flatten := by
  unfold extractPropositions
  rw [List.map_flatten, List.map_map]
  congr 1
  apply List.map_congr_left
  intro se _
  simp only [Function.comp_apply, renumberSection]
  exact renumberFrom_ids ch se.1.unit_id 1 se.2

theorem propId_range_nodup (ch u : String) (n : Nat) :
    ((List.range n).map (fun j => propId ch u (j + 1))).Nodup := by
  refine (List.nodup_range n).map ?_
  intro a b hab
  have := (propId_inj hab).2
  omega

theorem extractPropositions_ids_nodup (ch : String) :
    ∀ (sections : List Sec) (eng : List (List Proposition)),
      (sections.map Sec.unit_id).Nodup →
      ((extractPropositions ch sections eng).map Proposition.proposition_id).Nodup := by
  intro sections
  induction sections with
  | nil =>
    intro eng _
    rw [extractPropositions_ids]
    simp
  | cons s rest ih =>
    intro eng hnd
    cases eng with
    | nil =>
      rw [extractPropositions_ids]
      simp
    | cons ps eng' =>
      rw [extractPropositions_ids]
      simp only [List.zip_cons_cons, List.map_cons, List.flatten_cons]
      rw [List.nodup_append]
      have hrest := ih eng' (List.Nodup.of_cons hnd)
      rw [extractPropositions_ids] at hrest
      refine ⟨propId_range_nodup ch s.unit_id ps.length, hrest, ?_⟩
      intro x hx hx'
      obtain ⟨j, _, hxeq⟩ := List.mem_map.mp hx
      obtain ⟨l, hl, hxl⟩ := List.mem_flatten.mp hx'
      obtain ⟨se, hse, hleq⟩ := List.mem_map.mp hl
      subst hleq
      obtain ⟨j', _, hxeq'⟩ := List.mem_map.mp hxl
      have heq : propId ch s.unit_id (j + 1) = propId ch se.1.unit_id (j' + 1) := by
        rw [hxeq, hxeq']
      have hu := (propId_inj heq).1
      have hsmem : se.1 ∈ rest := (List.of_mem_zip hse).1
      have : s.unit_id ∈ rest.map Sec.unit_id := by
        rw [hu]
        exact List.mem_map_of_mem Sec.unit_id hsmem
      exact (List.nodup_cons.mp hnd).1 this

theorem takeawayId_range_nodup (ch : String) (n : Nat) :
    ((List.range n).map (fun j => takeawayId ch (j + 1))).Nodup := by
  refine (List.nodup_range n).map ?_
  intro a b hab
  have := takeawayId_inj hab
  omega

/-! ## List utilities -/

theorem find?_eq_head_filter {α : Type} (p : α → Bool) (l : List α) :
    l.find? p = (l.filter p).head? := by
  induction l with
  | nil => rfl
  | cons a l ih =>
    cases h : p a with
    | true => rw [List.find?_cons_of_pos _ h, List.filter_cons_of_pos h]; rfl
    | false =>
      rw [List.find?_cons_of_neg _ (by simp [h]), List.filter_cons_of_neg (by simp [h])]
      exact ih

theorem filter_append_left_none {α : Type} (p : α → Bool) (l₁ l₂ : List α)
    (h₁ : ∀ x ∈ l₁, p x = false) (h₂ : ∀ x ∈ l₂, p x = true) :
    (l₁ ++ l₂).filter p = l₂ := by
  rw [List.filter_append]
  have e1 : l₁.filter p = [] := List.filter_eq_nil_iff.mpr (by
    intro a ha; simp [h₁ a ha])
  have e2 : l₂.filter p = l₂ := List.filter_eq_self.mpr (by
    intro a ha; simp [h₂ a ha])
  rw [e1, e2, List.nil_append]

theorem find?_append_singleton {α : Type} (p : α → Bool) (l₁ : List α) (x : α)
    (h₁ : ∀ a ∈ l₁, p a = false) (hx : p x = true) :
    (l₁ ++ [x]).find? p = some x := by
  rw [List.find?_append]
  have e1 : l₁.find? p = none := List.find?_eq_none.mpr (by
    intro a ha; simp [h₁ a ha])
  rw [e1]
  simp [List.find?, hx]

theorem nodup_map_filter {α β : Type} (f : α → β) (p : α → Bool) (l : List α)
    (h : (l.map f).Nodup) : ((l.filter p).map f).Nodup :=
  h.sublist (List.Sublist.map f (List.filter_sublist l))

/-- Filtering the flattened per-parent blocks by one parent's key returns
exactly that parent's block, provided parent keys are distinct. -/
theorem filter_flatten_blocks {α γ : Type} (key : α → String) (build : α → List γ)
    (rowKey : γ → String)
    (hrow : ∀ a : α, ∀ r ∈ build a, rowKey r = key a) :
    ∀ (l : List α) (a : α), (l.map key).Nodup → a ∈ l →
      ((l.map build).flatten).filter (fun r => decide (rowKey r = key a)) = build a := by
  intro l
  induction l with
  | nil => intro a _ ha; cases ha
  | cons b rest ih =>
    intro a hnd ha
    simp only [List.map_cons, List.flatten_cons, List.filter_append]
    have hb_not : key b ∉ rest.map key := (List.nodup_cons.mp hnd).1
    rcases List.mem_cons.mp ha with heq | hmem
    · subst heq
      have h1 : (build a).filter (fun r => decide (rowKey r = key a)) = build a :=
        List.filter_eq_self.mpr (fun r hr => by simp [hrow a r hr])
      have h2 : ((rest.map build).flatten).filter
          (fun r => decide (rowKey r = key a)) = [] := by
        apply List.filter_eq_nil_iff.mpr
        intro r hr
        obtain ⟨lb, hlb, hrlb⟩ := List.mem_flatten.mp hr
        obtain ⟨a', ha', rfl⟩ := List.mem_map.mp hlb
        have hk : rowKey r = key a' := hrow a' r hrlb
        simp only [decide_eq_true_eq]
        intro hc
        exact hb_not (by
          rw [hc] at hk
          exact hk ▸ List.mem_map_of_mem key ha')
      rw [h1, h2, List.append_nil]
    · have h1 : (build b).filter (fun r => decide (rowKey r = key a)) = [] := by
        apply List.filter_eq_nil_iff.mpr
        intro r hr
        have hk : rowKey r = key b := hrow b r hr
        simp only [decide_eq_true_eq]
        intro hc
        apply hb_not
        rw [hc] at hk
        exact hk.symm ▸ List.mem_map_of_mem key hmem
      rw [h1, ih a (List.nodup_cons.mp hnd).2 hmem, List.nil_append]

/-- Two stores with equal tables are equal. -/
theorem storeExt {a b : Store}
    (h1 : a.chapters = b.chapters) (h2 : a.sections = b.sections)
    (h3 : a.entities = b.entities) (h4 : a.keywords = b.keywords)
    (h5 : a.propositions = b.propositions)
    (h6 : a.proposition_tags = b.proposition_tags)
    (h7 : a.key_takeaways = b.key_takeaways)
    (h8 : a.takeaway_propositions = b.takeaway_propositions)
    (h9 : a.takeaway_tags = b.takeaway_tags) : a = b := by
  cases a; cases b; simp_all

/-! ## Validation characterization -/

theorem tkUnitViolation_false_iff (c : ChapterAnalysis) (t : KeyTakeaway) :
    (¬ tkUnitViolation c t = true) ↔
      (∀ u, t.unit_id = some u → u ≠ "" → u ∈ validUnitIds c) := by
  unfold tkUnitViolation
  cases hu : t.unit_id with
  | none => simp
  | some u =>
    by_cases he : u = ""
    · subst he; simp
    · simp [he]

theorem saveValidationError_none_parts (c : ChapterAnalysis) :
    saveValidationError c = none ↔
      (c.phase2.propositions.find? (fun p => decide (p.unit_id ∉ validUnitIds c)) = none
        ∧ c.phase2.key_takeaways.find? (tkUnitViolation c) = none
        ∧ c.phase2.key_takeaways.find? (fun t => decide (tkInvalidRefs c t ≠ [])) = none) := by
  unfold saveValidationError
  cases h1 : c.phase2.propositions.find? (fun p => decide (p.unit_id ∉ validUnitIds c)) with
  | some p => simp
  | none =>
    cases h2 : c.phase2.key_takeaways.find? (tkUnitViolation c) with
    | some t => simp
    | none =>
      cases h3 : c.phase2.key_takeaways.find? (fun t => decide (tkInvalidRefs c t ≠ [])) with
      | some t => simp
      | none => simp

theorem saveValidationError_none_iff (c : ChapterAnalysis) :
    saveValidationError c = none ↔ (Inv1 c ∧ Inv2Truthy c ∧ Inv3 c) := by
  rw [saveValidationError_none_parts]
  have e1 : (c.phase2.propositions.find?
      (fun p => decide (p.unit_id ∉ validUnitIds c)) = none) ↔ Inv1 c := by
    rw [List.find?_eq_none]
    unfold Inv1
    simp
  have e2 : (c.phase2.key_takeaways.find? (tkUnitViolation c) = none) ↔ Inv2Truthy c := by
    rw [List.find?_eq_none]
    unfold Inv2Truthy
    constructor
    · intro h t ht
      exact (tkUnitViolation_false_iff c t).mp (h t ht)
    · intro h t ht
      exact (tkUnitViolation_false_iff c t).mpr (h t ht)
  have e3 : (c.phase2.key_takeaways.find?
      (fun t => decide (tkInvalidRefs c t ≠ [])) = none) ↔ Inv3 c := by
    rw [List.find?_eq_none]
    unfold Inv3
    constructor
    · intro h t ht pid hpid
      have := h t ht
      simp only [decide_eq_true_eq, Decidable.not_not] at this
      have hfil : tkInvalidRefs c t = [] := this
      unfold tkInvalidRefs at hfil
      have := List.filter_eq_nil_iff.mp hfil pid hpid
      simpa using this
    · intro h t ht
      simp only [decide_eq_true_eq, Decidable.not_not]
      unfold tkInvalidRefs
      apply List.filter_eq_nil_iff.mpr
      intro pid hpid
      simp [h t ht pid hpid]
  rw [e1, e2, e3]

theorem saveValidationError_eq_head (c : ChapterAnalysis) :
    saveValidationError c = (specViolations c).head? := by
  unfold saveValidationError specViolations
  rw [find?_eq_head_filter, find?_eq_head_filter, find?_eq_head_filter,
    List.head?_append, List.head?_append, List.head?_map, List.head?_map,
    List.head?_map]
  cases h1 : (c.phase2.propositions.filter
      (fun p => decide (p.unit_id ∉ validUnitIds c))).head? with
  | some p => simp [h1]
  | none =>
    cases h2 : (c.phase2.key_takeaways.filter (tkUnitViolation c)).head? with
    | some t => simp [h1, h2]
    | none =>
      cases h3 : (c.phase2.key_takeaways.filter
          (fun t => decide (tkInvalidRefs c t ≠ []))).head? with
      | some t => simp [h1, h2, h3]
      | none => simp [h1, h2, h3]

/-! ## Save basic behavior -/

theorem save_false_store_unchanged (s : Store) (c : ChapterAnalysis) :
    (save_chapter_analysis s c).2 = false → (save_chapter_analysis s c).1 = s := by
  unfold save_chapter_analysis
  cases h : saveValidationError c with
  | some e => intro; rfl
  | none =>
    by_cases hins : insertionsOk (saveTarget s c) c
    · simp [hins]
    · simp [hins]

theorem save_true_eq (s : Store) (c : ChapterAnalysis)
    (h : (save_chapter_analysis s c).2 = true) :
    saveValidationError c = none ∧ insertionsOk (saveTarget s c) c ∧
      (save_chapter_analysis s c).1 = insertChapterRows (saveTarget s c) c := by
  have hv : saveValidationError c = none := by
    cases hv : saveValidationError c with
    | none => rfl
    | some e =>
      unfold save_chapter_analysis at h
      rw [hv] at h
      simp at h
  refine ⟨hv, ?_⟩
  unfold save_chapter_analysis at h ⊢
  rw [hv] at h ⊢
  by_cases hins : insertionsOk (saveTarget s c) c
  · simp [hins]
  · simp [hins] at h

theorem save_eq_of_ok {s : Store} {c : ChapterAnalysis}
    (hval : saveValidationError c = none) (hins : insertionsOk (saveTarget s c) c) :
    save_chapter_analysis s c = (insertChapterRows (saveTarget s c) c, true) := by
  unfold save_chapter_analysis
  rw [hval, if_pos hins]

theorem saveTarget_pos {s : Store} {c : ChapterAnalysis}
    (h : c.chapter_id ∈ s.chapters.map ChapterRow.chapter_id) :
    saveTarget s c = deleteChapterRows s c.chapter_id := by
  unfold saveTarget
  rw [if_pos h]

/-! ## Delete and its effects -/

theorem mem_delete_chapters {s : Store} {cid : String} {r : ChapterRow} :
    r ∈ (deleteChapterRows s cid).chapters ↔ r ∈ s.chapters ∧ r.chapter_id ≠ cid := by
  simp [deleteChapterRows, List.mem_filter]

theorem mem_delete_sections {s : Store} {cid : String} {r : SectionRow} :
    r ∈ (deleteChapterRows s cid).sections ↔ r ∈ s.sections ∧ r.chapter_id ≠ cid := by
  simp [deleteChapterRows, List.mem_filter]

theorem mem_delete_entities {s : Store} {cid : String} {r : EntityRow} :
    r ∈ (deleteChapterRows s cid).entities ↔ r ∈ s.entities ∧ r.chapter_id ≠ cid := by
  simp [deleteChapterRows, List.mem_filter]

theorem mem_delete_keywords {s : Store} {cid : String} {r : KeywordRow} :
    r ∈ (deleteChapterRows s cid).keywords ↔ r ∈ s.keywords ∧ r.chapter_id ≠ cid := by
  simp [deleteChapterRows, List.mem_filter]

theorem mem_delete_propositions {s : Store} {cid : String} {r : PropRow} :
    r ∈ (deleteChapterRows s cid).propositions ↔
      r ∈ s.propositions ∧ r.chapter_id ≠ cid := by
  simp [deleteChapterRows, List.mem_filter]

theorem mem_delete_prop_tags {s : Store} {cid : String} {r : PropTagRow} :
    r ∈ (deleteChapterRows s cid).proposition_tags ↔
      r ∈ s.proposition_tags ∧ r.proposition_id ∉ deadPropIds s cid := by
  simp [deleteChapterRows, List.mem_filter]

theorem mem_delete_key_takeaways {s : Store} {cid : String} {r : TakeawayRow} :
    r ∈ (deleteChapterRows s cid).key_takeaways ↔
      r ∈ s.key_takeaways ∧ r.chapter_id ≠ cid := by
  simp [deleteChapterRows, List.mem_filter]

theorem mem_delete_tk_props {s : Store} {cid : String} {r : TkPropRow} :
    r ∈ (deleteChapterRows s cid).takeaway_propositions ↔
      r ∈ s.takeaway_propositions ∧
        r.takeaway_id ∉ deadTkIds s cid ∧ r.proposition_id ∉ deadPropIds s cid := by
  simp [deleteChapterRows, List.mem_filter, and_assoc]

theorem mem_delete_tk_tags {s : Store} {cid : String} {r : TkTagRow} :
    r ∈ (deleteChapterRows s cid).takeaway_tags ↔
      r ∈ s.takeaway_tags ∧ r.takeaway_id ∉ deadTkIds s cid := by
  simp [deleteChapterRows, List.mem_filter]

theorem deleteChapterRows_noChapterRows (s : Store) (cid : String) :
    noChapterRows (deleteChapterRows s cid) cid := by
  refine ⟨?_, ?_, ?_, ?_, ?_, ?_⟩
  · intro r hr; exact (mem_delete_chapters.mp hr).2
  · intro r hr; exact (mem_delete_sections.mp hr).2
  · intro r hr; exact (mem_delete_entities.mp hr).2
  · intro r hr; exact (mem_delete_keywords.mp hr).2
  · intro r hr; exact (mem_delete_propositions.mp hr).2
  · intro r hr; exact (mem_delete_key_takeaways.mp hr).2

theorem chapter_id_mem_delete {s : Store} {cid x : String}
    (hx : x ∈ s.chapters.map ChapterRow.chapter_id) (hne : x ≠ cid) :
    x ∈ (deleteChapterRows s cid).chapters.map ChapterRow.chapter_id := by
  obtain ⟨row, hrow, rfl⟩ := List.mem_map.mp hx
  exact List.mem_map_of_mem ChapterRow.chapter_id
    (mem_delete_chapters.mpr ⟨hrow, hne⟩)

theorem prop_id_mem_delete {s : Store} {cid x : String}
    (hx : x ∈ s.propositions.map PropRow.id) (hdead : x ∉ deadPropIds s cid) :
    x ∈ (deleteChapterRows s cid).propositions.map PropRow.id := by
  obtain ⟨p, hp, rfl⟩ := List.mem_map.mp hx
  have hne : p.chapter_id ≠ cid := by
    intro hc
    exact hdead (List.mem_map_of_mem PropRow.id (List.mem_filter.mpr ⟨hp, by simp [hc]⟩))
  exact List.mem_map_of_mem PropRow.id (mem_delete_propositions.mpr ⟨hp, hne⟩)

theorem tk_id_mem_delete {s : Store} {cid x : String}
    (hx : x ∈ s.key_takeaways.map TakeawayRow.id) (hdead : x ∉ deadTkIds s cid) :
    x ∈ (deleteChapterRows s cid).key_takeaways.map TakeawayRow.id := by
  obtain ⟨t, ht, rfl⟩ := List.mem_map.mp hx
  have hne : t.chapter_id ≠ cid := by
    intro hc
    exact hdead (List.mem_map_of_mem TakeawayRow.id (List.mem_filter.mpr ⟨ht, by simp [hc]⟩))
  exact List.mem_map_of_mem TakeawayRow.id (mem_delete_key_takeaways.mpr ⟨ht, hne⟩)

theorem deleteChapterRows_WF {s : Store} (hWF : s.WF) (cid : String) :
    (deleteChapterRows s cid).WF := by
  obtain ⟨hc, hp, ht, hsec, hent, hkw, hprop, hptag, htkc, hjoin, httag⟩ := hWF
  refine ⟨?_, ?_, ?_, ?_, ?_, ?_, ?_, ?_, ?_, ?_, ?_⟩
  · exact nodup_map_filter ChapterRow.chapter_id _ _ hc
  · exact nodup_map_filter PropRow.id _ _ hp
  · exact nodup_map_filter TakeawayRow.id _ _ ht
  · intro r hr
    obtain ⟨hmem, hne⟩ := mem_delete_sections.mp hr
    exact chapter_id_mem_delete (hsec r hmem) hne
  · intro r hr
    obtain ⟨hmem, hne⟩ := mem_delete_entities.mp hr
    exact chapter_id_mem_delete (hent r hmem) hne
  · intro r hr
    obtain ⟨hmem, hne⟩ := mem_delete_keywords.mp hr
    exact chapter_id_mem_delete (hkw r hmem) hne
  · intro r hr
    obtain ⟨hmem, hne⟩ := mem_delete_propositions.mp hr
    exact chapter_id_mem_delete (hprop r hmem) hne
  · intro r hr
    obtain ⟨hmem, hdead⟩ := mem_delete_prop_tags.mp hr
    exact prop_id_mem_delete (hptag r hmem) hdead
  · intro r hr
    obtain ⟨hmem, hne⟩ := mem_delete_key_takeaways.mp hr
    exact chapter_id_mem_delete (htkc r hmem) hne
  · intro r hr
    obtain ⟨hmem, hdt, hdp⟩ := mem_delete_tk_props.mp hr
    exact ⟨tk_id_mem_delete (hjoin r hmem).1 hdt, prop_id_mem_delete (hjoin r hmem).2 hdp⟩
  · intro r hr
    obtain ⟨hmem, hdt⟩ := mem_delete_tk_tags.mp hr
    exact tk_id_mem_delete (httag r hmem) hdt

theorem saveTarget_WF_no {s : Store} (hWF : s.WF) (c : ChapterAnalysis) :
    (saveTarget s c).WF ∧ noChapterRows (saveTarget s c) c.chapter_id := by
  unfold saveTarget
  by_cases h : c.chapter_id ∈ s.chapters.map ChapterRow.chapter_id
  · rw [if_pos h]
    exact ⟨deleteChapterRows_WF hWF _, deleteChapterRows_noChapterRows s _⟩
  · rw [if_neg h]
    obtain ⟨_, _, _, hsec, hent, hkw, hprop, _, htkc, _, _⟩ := id hWF
    refine ⟨hWF, ?_, ?_, ?_, ?_, ?_, ?_⟩
    · intro r hr hc'
      exact h (hc' ▸ List.mem_map_of_mem ChapterRow.chapter_id hr)
    · intro r hr hc'; exact h (hc' ▸ hsec r hr)
    · intro r hr hc'; exact h (hc' ▸ hent r hr)
    · intro r hr hc'; exact h (hc' ▸ hkw r hr)
    · intro r hr hc'; exact h (hc' ▸ hprop r hr)
    · intro r hr hc'; exact h (hc' ▸ htkc r hr)

/-! ## Facts about the inserted rows -/

theorem propRows_ids (c : ChapterAnalysis) :
    (propRows c).map PropRow.id = validPropIds c := by
  simp only [propRows, validPropIds, List.map_map]
  rfl

theorem takeawayRows_ids (c : ChapterAnalysis) :
    (takeawayRows c).map TakeawayRow.id
      = c.phase2.key_takeaways.map KeyTakeaway.takeaway_id := by
  simp only [takeawayRows, List.map_map]
  rfl

theorem sectionRows_chapter (c : ChapterAnalysis) :
    ∀ r ∈ sectionRows c, r.chapter_id = c.chapter_id := by
  intro r hr
  obtain ⟨x, _, rfl⟩ := List.mem_map.mp hr
  rfl

theorem entityRows_chapter (c : ChapterAnalysis) :
    ∀ r ∈ entityRows c, r.chapter_id = c.chapter_id := by
  intro r hr
  obtain ⟨x, _, rfl⟩ := List.mem_map.mp hr
  rfl

theorem keywordRows_chapter (c : ChapterAnalysis) :
    ∀ r ∈ keywordRows c, r.chapter_id = c.chapter_id := by
  intro r hr
  obtain ⟨x, _, rfl⟩ := List.mem_map.mp hr
  rfl

theorem propRows_chapter {c : ChapterAnalysis} (hcarry : carriesChapterId c) :
    ∀ r ∈ propRows c, r.chapter_id = c.chapter_id := by
  intro r hr
  obtain ⟨p, hp, rfl⟩ := List.mem_map.mp hr
  exact hcarry.1 p hp

theorem takeawayRows_chapter {c : ChapterAnalysis} (hcarry : carriesChapterId c) :
    ∀ r ∈ takeawayRows c, r.chapter_id = c.chapter_id := by
  intro r hr
  obtain ⟨t, ht, rfl⟩ := List.mem_map.mp hr
  exact hcarry.2 t ht

theorem propTagRows_pid (c : ChapterAnalysis) :
    ∀ r ∈ propTagRows c, r.proposition_id ∈ validPropIds c := by
  intro r hr
  unfold propTagRows at hr
  obtain ⟨lb, hlb, hrlb⟩ := List.mem_flatten.mp hr
  obtain ⟨p, hp, rfl⟩ := List.mem_map.mp hlb
  obtain ⟨tg, _, rfl⟩ := List.mem_map.mp hrlb
  exact List.mem_map_of_mem Proposition.proposition_id hp

theorem tkPropRows_mem (c : ChapterAnalysis) :
    ∀ r ∈ tkPropRows c, ∃ t ∈ c.phase2.key_takeaways,
      r.takeaway_id = t.takeaway_id ∧ r.proposition_id ∈ t.proposition_ids := by
  intro r hr
  unfold tkPropRows at hr
  obtain ⟨lb, hlb, hrlb⟩ := List.mem_flatten.mp hr
  obtain ⟨t, ht, rfl⟩ := List.mem_map.mp hlb
  obtain ⟨pid, hpid, rfl⟩ := List.mem_map.mp hrlb
  exact ⟨t, ht, rfl, hpid⟩

theorem tkTagRows_tid (c : ChapterAnalysis) :
    ∀ r ∈ tkTagRows c, r.takeaway_id ∈ c.phase2.key_takeaways.map KeyTakeaway.takeaway_id := by
  intro r hr
  unfold tkTagRows at hr
  obtain ⟨lb, hlb, hrlb⟩ := List.mem_flatten.mp hr
  obtain ⟨t, ht, rfl⟩ := List.mem_map.mp hlb
  obtain ⟨tg, _, rfl⟩ := List.mem_map.mp hrlb
  exact List.mem_map_of_mem KeyTakeaway.takeaway_id ht

theorem mem_map_append_left {α β : Type} (f : α → β) {x : β} {l₁ l₂ : List α}
    (h : x ∈ l₁.map f) : x ∈ (l₁ ++ l₂).map f := by
  rw [List.map_append]
  exact List.mem_append_left _ h

theorem mem_map_append_right {α β : Type} (f : α → β) {x : β} {l₁ l₂ : List α}
    (h : x ∈ l₂.map f) : x ∈ (l₁ ++ l₂).map f := by
  rw [List.map_append]
  exact List.mem_append_right _ h

theorem filter_append_right_none {α : Type} (p : α → Bool) (l₁ l₂ : List α)
    (h₁ : ∀ x ∈ l₁, p x = true) (h₂ : ∀ x ∈ l₂, p x = false) :
    (l₁ ++ l₂).filter p = l₁ := by
  rw [List.filter_append]
  have e1 : l₁.filter p = l₁ := List.filter_eq_self.mpr (by
    intro a ha; simp [h₁ a ha])
  have e2 : l₂.filter p = [] := List.filter_eq_nil_iff.mpr (by
    intro a ha; simp [h₂ a ha])
  rw [e1, e2, List.append_nil]

/-! ## Dead ids after inserting a fresh chapter -/

theorem deadPropIds_insert {s1 : Store} {c : ChapterAnalysis}
    (hno : noChapterRows s1 c.chapter_id) (hcarry : carriesChapterId c) :
    deadPropIds (insertChapterRows s1 c) c.chapter_id = validPropIds c := by
  unfold deadPropIds
  show ((s1.propositions ++ propRows c).filter
    (fun r => decide (r.chapter_id = c.chapter_id))).map PropRow.id = _
  rw [filter_append_left_none _ _ _
    (fun r hr => by simp [hno.2.2.2.2.1 r hr])
    (fun r hr => by simp [propRows_chapter hcarry r hr])]
  exact propRows_ids c

theorem deadTkIds_insert {s1 : Store} {c : ChapterAnalysis}
    (hno : noChapterRows s1 c.chapter_id) (hcarry : carriesChapterId c) :
    deadTkIds (insertChapterRows s1 c) c.chapter_id
      = c.phase2.key_takeaways.map KeyTakeaway.takeaway_id := by
  unfold deadTkIds
  show ((s1.key_takeaways ++ takeawayRows c).filter
    (fun r => decide (r.chapter_id = c.chapter_id))).map TakeawayRow.id = _
  rw [filter_append_left_none _ _ _
    (fun r hr => by simp [hno.2.2.2.2.2 r hr])
    (fun r hr => by simp [takeawayRows_chapter hcarry r hr])]
  exact takeawayRows_ids c

/-! ## Deleting a freshly inserted chapter restores the old store -/

theorem delete_insert_cancel {s1 : Store} {c : ChapterAnalysis}
    (hWF : s1.WF) (hno : noChapterRows s1 c.chapter_id)
    (hins : insertionsOk s1 c) (hcarry : carriesChapterId c) :
    deleteChapterRows (insertChapterRows s1 c) c.chapter_id = s1 := by
  obtain ⟨hnoc, hnos, hnoe, hnok, hnop, hnot⟩ := hno
  obtain ⟨hfresh, hsecN, hpidN, hpdisj, htidN, htdisj, hpch, htch⟩ := hins
  obtain ⟨hc, hp, ht, hsec, hent, hkw, hprop, hptag, htkc, hjoin, httag⟩ := hWF
  have hdp : deadPropIds (insertChapterRows s1 c) c.chapter_id = validPropIds c :=
    deadPropIds_insert ⟨hnoc, hnos, hnoe, hnok, hnop, hnot⟩ hcarry
  have hdt : deadTkIds (insertChapterRows s1 c) c.chapter_id
      = c.phase2.key_takeaways.map KeyTakeaway.takeaway_id :=
    deadTkIds_insert ⟨hnoc, hnos, hnoe, hnok, hnop, hnot⟩ hcarry
  have hs1pid_fresh : ∀ x ∈ s1.propositions.map PropRow.id, x ∉ validPropIds c := by
    intro x hx hvx
    obtain ⟨q, hq, rfl⟩ := List.mem_map.mp hvx
    exact hpdisj q hq hx
  have hs1tid_fresh : ∀ x ∈ s1.key_takeaways.map TakeawayRow.id,
      x ∉ c.phase2.key_takeaways.map KeyTakeaway.takeaway_id := by
    intro x hx hvx
    obtain ⟨q, hq, rfl⟩ := List.mem_map.mp hvx
    exact htdisj q hq hx
  apply storeExt <;>
    (simp only [deleteChapterRows]
     try simp only [hdp, hdt]
     simp only [insertChapterRows])
  · exact filter_append_right_none _ _ _
      (fun r hr => by simp [hnoc r hr])
      (fun r hr => by
        have : r = chapterRow c := List.mem_singleton.mp hr
        subst this; simp [chapterRow])
  · exact filter_append_right_none _ _ _
      (fun r hr => by simp [hnos r hr])
      (fun r hr => by simp [sectionRows_chapter c r hr])
  · exact filter_append_right_none _ _ _
      (fun r hr => by simp [hnoe r hr])
      (fun r hr => by simp [entityRows_chapter c r hr])
  · exact filter_append_right_none _ _ _
      (fun r hr => by simp [hnok r hr])
      (fun r hr => by simp [keywordRows_chapter c r hr])
  · exact filter_append_right_none _ _ _
      (fun r hr => by simp [hnop r hr])
      (fun r hr => by simp [propRows_chapter hcarry r hr])
  · exact filter_append_right_none _ _ _
      (fun r hr => by simp [hs1pid_fresh r.proposition_id (hptag r hr)])
      (fun r hr => by simp [propTagRows_pid c r hr])
  · exact filter_append_right_none _ _ _
      (fun r hr => by simp [hnot r hr])
      (fun r hr => by simp [takeawayRows_chapter hcarry r hr])
  · exact filter_append_right_none _ _ _
      (fun r hr => by
        simp [hs1tid_fresh r.takeaway_id (hjoin r hr).1,
          hs1pid_fresh r.proposition_id (hjoin r hr).2])
      (fun r hr => by
        obtain ⟨t, ht', heq, _⟩ := tkPropRows_mem c r hr
        simp [heq ▸ List.mem_map_of_mem KeyTakeaway.takeaway_id ht'])
  · exact filter_append_right_none _ _ _
      (fun r hr => by simp [hs1tid_fresh r.takeaway_id (httag r hr)])
      (fun r hr => by simp [tkTagRows_tid c r hr])

theorem nodup_append_disjoint {α : Type} {l₁ l₂ : List α}
    (h₁ : l₁.Nodup) (h₂ : l₂.Nodup) (hd : ∀ x ∈ l₁, x ∉ l₂) : (l₁ ++ l₂).Nodup := by
  rw [List.nodup_append]
  exact ⟨h₁, h₂, fun x hx hx' => absurd hx' (hd x hx)⟩

theorem insertChapterRows_WF {s1 : Store} {c : ChapterAnalysis}
    (hWF : s1.WF) (hins : insertionsOk s1 c)
    (hval : saveValidationError c = none) (hcarry : carriesChapterId c) :
    (insertChapterRows s1 c).WF := by
  obtain ⟨hfresh, hsecN, hpidN, hpdisj, htidN, htdisj, hpch, htch⟩ := hins
  obtain ⟨hc, hp, ht, hsec, hent, hkw, hprop, hptag, htkc, hjoin, httag⟩ := hWF
  have hInv3 : Inv3 c := ((saveValidationError_none_iff c).mp hval).2.2
  have hchap_new : (chapterRow c).chapter_id = c.chapter_id := rfl
  refine ⟨?_, ?_, ?_, ?_, ?_, ?_, ?_, ?_, ?_, ?_, ?_⟩ <;> simp only [insertChapterRows]
  · rw [List.map_append]
    refine nodup_append_disjoint hc ?_ ?_
    · simp
    · intro x hx
      simp only [List.map_cons, List.map_nil, List.mem_singleton, hchap_new]
      intro heq
      subst heq
      exact hfresh hx
  · rw [List.map_append, propRows_ids]
    refine nodup_append_disjoint hp hpidN ?_
    intro x hx hx'
    obtain ⟨q, hq, rfl⟩ := List.mem_map.mp hx'
    exact hpdisj q hq hx
  · rw [List.map_append, takeawayRows_ids]
    refine nodup_append_disjoint ht htidN ?_
    intro x hx hx'
    obtain ⟨q, hq, rfl⟩ := List.mem_map.mp hx'
    exact htdisj q hq hx
  · intro r hr
    rcases List.mem_append.mp hr with hmem | hmem
    · exact mem_map_append_left ChapterRow.chapter_id (hsec r hmem)
    · rw [sectionRows_chapter c r hmem]
      exact mem_map_append_right ChapterRow.chapter_id (by simp [hchap_new])
  · intro r hr
    rcases List.mem_append.mp hr with hmem | hmem
    · exact mem_map_append_left ChapterRow.chapter_id (hent r hmem)
    · rw [entityRows_chapter c r hmem]
      exact mem_map_append_right ChapterRow.chapter_id (by simp [hchap_new])
  · intro r hr
    rcases List.mem_append.mp hr with hmem | hmem
    · exact mem_map_append_left ChapterRow.chapter_id (hkw r hmem)
    · rw [keywordRows_chapter c r hmem]
      exact mem_map_append_right ChapterRow.chapter_id (by simp [hchap_new])
  · intro r hr
    rcases List.mem_append.mp hr with hmem | hmem
    · exact mem_map_append_left ChapterRow.chapter_id (hprop r hmem)
    · rw [propRows_chapter hcarry r hmem]
      exact mem_map_append_right ChapterRow.chapter_id (by simp [hchap_new])
  · intro r hr
    rcases List.mem_append.mp hr with hmem | hmem
    · exact mem_map_append_left PropRow.id (hptag r hmem)
    · refine mem_map_append_right PropRow.id ?_
      rw [propRows_ids]
      exact propTagRows_pid c r hmem
  · intro r hr
    rcases List.mem_append.mp hr with hmem | hmem
    · exact mem_map_append_left ChapterRow.chapter_id (htkc r hmem)
    · rw [takeawayRows_chapter hcarry r hmem]
      exact mem_map_append_right ChapterRow.chapter_id (by simp [hchap_new])
  · intro r hr
    rcases List.mem_append.mp hr with hmem | hmem
    · exact ⟨mem_map_append_left TakeawayRow.id (hjoin r hmem).1,
        mem_map_append_left PropRow.id (hjoin r hmem).2⟩
    · obtain ⟨t, ht', heq, hpidmem⟩ := tkPropRows_mem c r hmem
      constructor
      · refine mem_map_append_right TakeawayRow.id ?_
        rw [takeawayRows_ids, heq]
        exact List.mem_map_of_mem KeyTakeaway.takeaway_id ht'
      · refine mem_map_append_right PropRow.id ?_
        rw [propRows_ids]
        exact hInv3 t ht' r.proposition_id hpidmem
  · intro r hr
    rcases List.mem_append.mp hr with hmem | hmem
    · exact mem_map_append_left TakeawayRow.id (httag r hmem)
    · refine mem_map_append_right TakeawayRow.id ?_
      rw [takeawayRows_ids]
      exact tkTagRows_tid c r hmem

/-! ## Loading a freshly inserted chapter -/

theorem loadProp_toPropRow {T : Store} {p : Proposition}
    (htags : (T.proposition_tags.filter
      (fun tr => decide (tr.proposition_id = p.proposition_id))).map PropTagRow.tag
      = p.tags) :
    loadProp T (toPropRow p) = p := by
  have h : loadProp T (toPropRow p) =
      { proposition_id := p.proposition_id
        chapter_id := p.chapter_id
        unit_id := p.unit_id
        proposition_text := p.proposition_text
        bloom_level := p.bloom_level
        bloom_verb := p.bloom_verb
        evidence_location := p.evidence_location
        source_type := p.source_type
        tags := (T.proposition_tags.filter
          (fun tr => decide (tr.proposition_id = p.proposition_id))).map PropTagRow.tag } := rfl
  rw [h, htags]

theorem loadTk_toTakeawayRow {T : Store} {t : KeyTakeaway}
    (hpids : (T.takeaway_propositions.filter
      (fun jr => decide (jr.takeaway_id = t.takeaway_id))).map TkPropRow.proposition_id
      = t.proposition_ids)
    (htags : (T.takeaway_tags.filter
      (fun tr => decide (tr.takeaway_id = t.takeaway_id))).map TkTagRow.tag
      = t.tags) :
    loadTk T (toTakeawayRow t) = t := by
  have h : loadTk T (toTakeawayRow t) =
      { takeaway_id := t.takeaway_id
        chapter_id := t.chapter_id
        unit_id := t.unit_id
        text := t.text
        proposition_ids := (T.takeaway_propositions.filter
          (fun jr => decide (jr.takeaway_id = t.takeaway_id))).map TkPropRow.proposition_id
        dominant_bloom_level := t.dominant_bloom_level
        tags := (T.takeaway_tags.filter
          (fun tr => decide (tr.takeaway_id = t.takeaway_id))).map TkTagRow.tag } := rfl
  rw [h, hpids, htags]

theorem load_insert {s1 : Store} {c : ChapterAnalysis}
    (hWF : s1.WF) (hno : noChapterRows s1 c.chapter_id)
    (hins : insertionsOk s1 c) (hcarry : carriesChapterId c)
    (hnotes : c.phase2.notes = none)
    (hsecS : List.Sorted secRowLE (sectionRows c))
    (hpropS : List.Sorted propRowLE (propRows c))
    (htkS : List.Sorted tkRowLE (takeawayRows c)) :
    load_chapter_analysis (insertChapterRows s1 c) c.chapter_id = some c := by
  obtain ⟨hnoc, hnos, hnoe, hnok, hnop, hnot⟩ := hno
  obtain ⟨hfresh, hsecN, hpidN, hpdisj, htidN, htdisj, hpch, htch⟩ := hins
  obtain ⟨hc, hp, ht, hsec, hent, hkw, hprop, hptag, htkc, hjoin, httag⟩ := hWF
  have hfind : (insertChapterRows s1 c).chapters.find?
      (fun r => decide (r.chapter_id = c.chapter_id)) = some (chapterRow c) := by
    show (s1.chapters ++ [chapterRow c]).find? _ = _
    exact find?_append_singleton _ _ _
      (fun a ha => by simp [hnoc a ha]) (by simp [chapterRow])
  have hsecf : (insertChapterRows s1 c).sections.filter
      (fun r => decide (r.chapter_id = c.chapter_id)) = sectionRows c := by
    show (s1.sections ++ sectionRows c).filter _ = _
    exact filter_append_left_none _ _ _
      (fun r hr => by simp [hnos r hr])
      (fun r hr => by simp [sectionRows_chapter c r hr])
  have hentf : (insertChapterRows s1 c).entities.filter
      (fun r => decide (r.chapter_id = c.chapter_id)) = entityRows c := by
    show (s1.entities ++ entityRows c).filter _ = _
    exact filter_append_left_none _ _ _
      (fun r hr => by simp [hnoe r hr])
      (fun r hr => by simp [entityRows_chapter c r hr])
  have hkwf : (insertChapterRows s1 c).keywords.filter
      (fun r => decide (r.chapter_id = c.chapter_id)) = keywordRows c := by
    show (s1.keywords ++ keywordRows c).filter _ = _
    exact filter_append_left_none _ _ _
      (fun r hr => by simp [hnok r hr])
      (fun r hr => by simp [keywordRows_chapter c r hr])
  have hpropf : (insertChapterRows s1 c).propositions.filter
      (fun r => decide (r.chapter_id = c.chapter_id)) = propRows c := by
    show (s1.propositions ++ propRows c).filter _ = _
    exact filter_append_left_none _ _ _
      (fun r hr => by simp [hnop r hr])
      (fun r hr => by simp [propRows_chapter hcarry r hr])
  have htkf : (insertChapterRows s1 c).key_takeaways.filter
      (fun r => decide (r.chapter_id = c.chapter_id)) = takeawayRows c := by
    show (s1.key_takeaways ++ takeawayRows c).filter _ = _
    exact filter_append_left_none _ _ _
      (fun r hr => by simp [hnot r hr])
      (fun r hr => by simp [takeawayRows_chapter hcarry r hr])
  have htagsp : ∀ p ∈ c.phase2.propositions,
      ((insertChapterRows s1 c).proposition_tags.filter
        (fun tr => decide (tr.proposition_id = p.proposition_id))).map PropTagRow.tag
      = p.tags := by
    intro p hp
    show ((s1.proposition_tags ++ propTagRows c).filter _).map _ = _
    rw [List.filter_append]
    have e1 : s1.proposition_tags.filter
        (fun tr => decide (tr.proposition_id = p.proposition_id)) = [] := by
      apply List.filter_eq_nil_iff.mpr
      intro tr htr
      simp only [decide_eq_true_eq]
      intro heq
      exact hpdisj p hp (heq ▸ hptag tr htr)
    have e2 : (propTagRows c).filter
        (fun tr => decide (tr.proposition_id = p.proposition_id)) =
        p.tags.map (fun tg => (⟨p.proposition_id, tg⟩ : PropTagRow)) := by
      refine filter_flatten_blocks Proposition.proposition_id
        (fun q => q.tags.map (fun tg => (⟨q.proposition_id, tg⟩ : PropTagRow)))
        PropTagRow.proposition_id ?_ c.phase2.propositions p hpidN hp
      intro a r hr
      obtain ⟨tg, _, rfl⟩ := List.mem_map.mp hr
      rfl
    rw [e1, e2, List.nil_append, List.map_map]
    have hid : ∀ tg ∈ p.tags,
        (PropTagRow.tag ∘ fun tg => (⟨p.proposition_id, tg⟩ : PropTagRow)) tg = id tg :=
      fun tg _ => rfl
    rw [List.map_congr_left hid, List.map_id]
  have hpidst : ∀ t ∈ c.phase2.key_takeaways,
      ((insertChapterRows s1 c).takeaway_propositions.filter
        (fun jr => decide (jr.takeaway_id = t.takeaway_id))).map TkPropRow.proposition_id
      = t.proposition_ids := by
    intro t ht'
    show ((s1.takeaway_propositions ++ tkPropRows c).filter _).map _ = _
    rw [List.filter_append]
    have e1 : s1.takeaway_propositions.filter
        (fun jr => decide (jr.takeaway_id = t.takeaway_id)) = [] := by
      apply List.filter_eq_nil_iff.mpr
      intro jr hjr
      simp only [decide_eq_true_eq]
      intro heq
      exact htdisj t ht' (heq ▸ (hjoin jr hjr).1)
    have e2 : (tkPropRows c).filter
        (fun jr => decide (jr.takeaway_id = t.takeaway_id)) =
        t.proposition_ids.map (fun pid => (⟨t.takeaway_id, pid⟩ : TkPropRow)) := by
      refine filter_flatten_blocks KeyTakeaway.takeaway_id
        (fun u => u.proposition_ids.map (fun pid => (⟨u.takeaway_id, pid⟩ : TkPropRow)))
        TkPropRow.takeaway_id ?_ c.phase2.key_takeaways t htidN ht'
      intro a r hr
      obtain ⟨pid, _, rfl⟩ := List.mem_map.mp hr
      rfl
    rw [e1, e2, List.nil_append, List.map_map]
    have hid : ∀ pid ∈ t.proposition_ids,
        (TkPropRow.proposition_id ∘ fun pid => (⟨t.takeaway_id, pid⟩ : TkPropRow)) pid
          = id pid :=
      fun pid _ => rfl
    rw [List.map_congr_left hid, List.map_id]
  have htagst : ∀ t ∈ c.phase2.key_takeaways,
      ((insertChapterRows s1 c).takeaway_tags.filter
        (fun tr => decide (tr.takeaway_id = t.takeaway_id))).map TkTagRow.tag
      = t.tags := by
    intro t ht'
    show ((s1.takeaway_tags ++ tkTagRows c).filter _).map _ = _
    rw [List.filter_append]
    have e1 : s1.takeaway_tags.filter
        (fun tr => decide (tr.takeaway_id = t.takeaway_id)) = [] := by
      apply List.filter_eq_nil_iff.mpr
      intro tr htr
      simp only [decide_eq_true_eq]
      intro heq
      exact htdisj t ht' (heq ▸ httag tr htr)
    have e2 : (tkTagRows c).filter
        (fun tr => decide (tr.takeaway_id = t.takeaway_id)) =
        t.tags.map (fun tg => (⟨t.takeaway_id, tg⟩ : TkTagRow)) := by
      refine filter_flatten_blocks KeyTakeaway.takeaway_id
        (fun u => u.tags.map (fun tg => (⟨u.takeaway_id, tg⟩ : TkTagRow)))
        TkTagRow.takeaway_id ?_ c.phase2.key_takeaways t htidN ht'
      intro a r hr
      obtain ⟨tg, _, rfl⟩ := List.mem_map.mp hr
      rfl
    rw [e1, e2, List.nil_append, List.map_map]
    have hid : ∀ tg ∈ t.tags,
        (TkTagRow.tag ∘ fun tg => (⟨t.takeaway_id, tg⟩ : TkTagRow)) tg = id tg :=
      fun tg _ => rfl
    rw [List.map_congr_left hid, List.map_id]
  unfold load_chapter_analysis
  rw [hfind]
  refine congrArg some ?_
  unfold assembleChapter
  rw [hsecf, hentf, hkwf, hpropf, htkf,
    List.Sorted.insertionSort_eq hsecS, List.Sorted.insertionSort_eq hpropS,
    List.Sorted.insertionSort_eq htkS]
  have hsecmap : (sectionRows c).map rowToSec = c.phase1.sections := by
    unfold sectionRows
    rw [List.map_map]
    have hid : ∀ s ∈ c.phase1.sections,
        (rowToSec ∘ toSectionRow c.chapter_id) s = id s := fun s _ => rfl
    rw [List.map_congr_left hid, List.map_id]
  have hentmap : (entityRows c).map (fun r => (⟨r.name, r.type⟩ : Entity))
      = c.phase1.key_entities := by
    unfold entityRows
    rw [List.map_map]
    have hid : ∀ e ∈ c.phase1.key_entities,
        ((fun r : EntityRow => (⟨r.name, r.type⟩ : Entity)) ∘
          fun e => (⟨c.chapter_id, e.name, e.type⟩ : EntityRow)) e = id e := fun e _ => rfl
    rw [List.map_congr_left hid, List.map_id]
  have hkwmap : (keywordRows c).map KeywordRow.keyword = c.phase1.keywords := by
    unfold keywordRows
    rw [List.map_map]
    have hid : ∀ k ∈ c.phase1.keywords,
        (KeywordRow.keyword ∘ fun k => (⟨c.chapter_id, k⟩ : KeywordRow)) k = id k :=
      fun k _ => rfl
    rw [List.map_congr_left hid, List.map_id]
  have hpropmap : (propRows c).map (loadProp (insertChapterRows s1 c))
      = c.phase2.propositions := by
    unfold propRows
    rw [List.map_map]
    have hid : ∀ p ∈ c.phase2.propositions,
        (loadProp (insertChapterRows s1 c) ∘ toPropRow) p = id p := fun p hp =>
      loadProp_toPropRow (htagsp p hp)
    rw [List.map_congr_left hid, List.map_id]
  have htkmap : (takeawayRows c).map (loadTk (insertChapterRows s1 c))
      = c.phase2.key_takeaways := by
    unfold takeawayRows
    rw [List.map_map]
    have hid : ∀ t ∈ c.phase2.key_takeaways,
        (loadTk (insertChapterRows s1 c) ∘ toTakeawayRow) t = id t := fun t ht' =>
      loadTk_toTakeawayRow (hpidst t ht') (htagst t ht')
    rw [List.map_congr_left hid, List.map_id]
  rw [hsecmap, hentmap, hkwmap, hpropmap, htkmap, ← hnotes]
  rfl

/-! ## Claim theorems -/

/-- Claim C1: after the extraction and synthesis passes (`run_phase_2`),
every proposition carries an id `{chapter_id}_{unit_id}_p{seq:03d}`,
sequential within its section starting at `p001` and continuing across
that section's chunks in order; every takeaway carries an id
`{chapter_id}_t{seq:03d}` sequential globally in section-processing
order; engine-assigned ids are discarded (the final ids depend only on
positions); under the data model's uniqueness of section `unit_id`s the
proposition id set has no duplicates; each id's `unit_id` is a section
unit id of the chapter; and takeaway ids are pairwise distinct. -/
theorem C1_renumbering (ch : String) (sections : List Sec)
    (engineProps : List (List Proposition)) (engineTks : List (List KeyTakeaway))
    (hnodup : (sections.map Sec.unit_id).Nodup) :
    ((runPhase2 ch sections engineProps engineTks).propositions.map
        Proposition.proposition_id
      = ((sections.zip engineProps).map
          (fun se => (List.range se.2.length).map
            (fun j => propId ch se.1.unit_id (j + 1)))).flatten)
    ∧ ((runPhase2 ch sections engineProps engineTks).propositions.map
        Proposition.proposition_id).Nodup
    ∧ (∀ p ∈ (runPhase2 ch sections engineProps engineTks).propositions,
        ∃ u ∈ sections.map Sec.unit_id, ∃ k, 1 ≤ k ∧ p.proposition_id = propId ch u k)
    ∧ ((runPhase2 ch sections engineProps engineTks).key_takeaways.map
          KeyTakeaway.takeaway_id
      = (List.range
          (runPhase2 ch sections engineProps engineTks).key_takeaways.length).map
          (fun j => takeawayId ch (j + 1)))
    ∧ ((runPhase2 ch sections engineProps engineTks).key_takeaways.map
        KeyTakeaway.takeaway_id).Nodup := by
  have hprops : (runPhase2 ch sections engineProps engineTks).propositions
      = extractPropositions ch sections engineProps := rfl
  have htks : (runPhase2 ch sections engineProps engineTks).key_takeaways
      = renumberTakeawaysFrom ch 1 (rawTakeaways ch sections engineProps engineTks) := rfl
  refine ⟨?_, ?_, ?_, ?_, ?_⟩
  · rw [hprops]
    exact extractPropositions_ids ch sections engineProps
  · rw [hprops]
    exact extractPropositions_ids_nodup ch sections engineProps hnodup
  · intro p hp
    rw [hprops] at hp
    have hid : p.proposition_id ∈
        (extractPropositions ch sections engineProps).map Proposition.proposition_id :=
      List.mem_map_of_mem _ hp
    rw [extractPropositions_ids] at hid
    obtain ⟨lb, hlb, hmem⟩ := List.mem_flatten.mp hid
    obtain ⟨se, hse, rfl⟩ := List.mem_map.mp hlb
    obtain ⟨j, _, heq⟩ := List.mem_map.mp hmem
    exact ⟨se.1.unit_id, List.mem_map_of_mem Sec.unit_id (List.of_mem_zip hse).1,
      j + 1, by omega, heq.symm⟩
  · rw [htks, renumberTakeawaysFrom_ids, renumberTakeawaysFrom_length]
  · rw [htks, renumberTakeawaysFrom_ids]
    exact takeawayId_range_nodup ch _

theorem C1_renumbering_witness :
    ((runPhase2 "ch01" [secA, secB]
        [[rawProp "x_p001" "1.1", rawProp "x_p001" "1.1"], [rawProp "x_p001" "1.2"]]
        [[rawTk "t9" ["ch01_1.1_p001"]]]).propositions.map
      Proposition.proposition_id).Nodup
    ∧ (runPhase2 "ch01" [secA, secB]
        [[rawProp "x_p001" "1.1", rawProp "x_p001" "1.1"], [rawProp "x_p001" "1.2"]]
        [[rawTk "t9" ["ch01_1.1_p001"]]]).propositions.map Proposition.proposition_id
      = ["ch01_1.1_p001", "ch01_1.1_p002", "ch01_1.2_p001"] := by
  constructor
  · exact (C1_renumbering "ch01" [secA, secB]
      [[rawProp "x_p001" "1.1", rawProp "x_p001" "1.1"], [rawProp "x_p001" "1.2"]]
      [[rawTk "t9" ["ch01_1.1_p001"]]] (by decide)).2.1
  · decide

/-- Claim C2, amended: `save_chapter_analysis` re-validates, before any
write, invariant 1, invariant 2 weakened to takeaways with a
Python-truthy (non-null, non-empty) `unit_id`, and invariant 3 — but not
invariant 4, whose enforcement falls to the spec-modelled primary keys
during insertion; on any failure — validation or insertion — the store
is exactly its pre-call state (so a previously saved version of the same
chapter survives untouched). -/
theorem C2_save_validation (c : ChapterAnalysis) :
    (saveValidationError c = none ↔ (Inv1 c ∧ Inv2Truthy c ∧ Inv3 c))
    ∧ ∀ s, (save_chapter_analysis s c).2 = false → (save_chapter_analysis s c).1 = s :=
  ⟨saveValidationError_none_iff c, fun s => save_false_store_unchanged s c⟩

/-- Claim C2 counterexample: the claim says save re-validates invariants
1-4 before any write; but a chapter with a duplicated proposition id
(invariant 4 broken) passes the pre-write validation, as does one whose
takeaway names the empty-string unit (invariant 2 broken). -/
theorem C2_save_validation_cex :
    (saveValidationError chDup = none ∧ ¬ Inv4 chDup)
    ∧ (saveValidationError chEmptyUnit = none ∧ ¬ Inv2 chEmptyUnit) := by
  refine ⟨⟨by decide, by decide⟩, by decide, by decide⟩

theorem C2_save_validation_witness :
    (save_chapter_analysis emptyStore chDup).1 = emptyStore :=
  (C2_save_validation chDup).2 emptyStore (by decide)

/-- Claim C3, amended: for every `ChapterAnalysis` accepted by save whose
propositions and takeaways carry the chapter's own id, whose `notes`
field is null, and whose sections, propositions and takeaways are
already in load order (sections by `(level, unit_id)`, propositions and
takeaways by id, as the code's `ORDER BY` clauses return them), loading
the chapter id afterwards returns the graph exactly. -/
theorem C3_round_trip (S : Store) (X : ChapterAnalysis)
    (hWF : S.WF) (hok : (save_chapter_analysis S X).2 = true)
    (hcarry : carriesChapterId X) (hnotes : X.phase2.notes = none)
    (hsecS : List.Sorted secRowLE (sectionRows X))
    (hpropS : List.Sorted propRowLE (propRows X))
    (htkS : List.Sorted tkRowLE (takeawayRows X)) :
    load_chapter_analysis (save_chapter_analysis S X).1 X.chapter_id = some X := by
  obtain ⟨hval, hins, heq⟩ := save_true_eq S X hok
  rw [heq]
  obtain ⟨hWF1, hno1⟩ := saveTarget_WF_no hWF X
  exact load_insert hWF1 hno1 hins hcarry hnotes hsecS hpropS htkS

/-- Claim C3 counterexample: a chapter whose propositions are stored out
of lexicographic id order is accepted by save, but the loaded graph
reorders them (`ORDER BY id`), so it is not equal to the original even
up to tag order. -/
theorem C3_round_trip_cex :
    (save_chapter_analysis emptyStore chUnsorted).2 = true
    ∧ (load_chapter_analysis (save_chapter_analysis emptyStore chUnsorted).1
        "ch01").map (chapterEqUpToTags chUnsorted) = some false := by
  constructor
  · decide
  · decide

theorem C3_round_trip_witness :
    load_chapter_analysis (save_chapter_analysis emptyStore chOK).1 "ch01"
      = some chOK :=
  C3_round_trip emptyStore chOK (by decide) (by decide) (by decide) (by decide)
    (by decide) (by decide) (by decide)

/-- Claim C4: saving a second version of the same chapter id erases the
first version entirely: the store after save‑then‑save equals the store
after a single save of the second version; the final store is
well-formed (no orphaned rows in any dependent table), its rows for the
chapter are exactly the second version's rows, and Load sees only the
second content. -/
theorem C4_overwrite (S : Store) (X1 X2 : ChapterAnalysis)
    (hWF : S.WF) (hcid : X2.chapter_id = X1.chapter_id)
    (hcarry1 : carriesChapterId X1) (hcarry2 : carriesChapterId X2)
    (h1 : (save_chapter_analysis S X1).2 = true)
    (h2 : (save_chapter_analysis (save_chapter_analysis S X1).1 X2).2 = true) :
    save_chapter_analysis (save_chapter_analysis S X1).1 X2
        = save_chapter_analysis S X2
    ∧ load_chapter_analysis
        (save_chapter_analysis (save_chapter_analysis S X1).1 X2).1 X2.chapter_id
      = load_chapter_analysis (save_chapter_analysis S X2).1 X2.chapter_id
    ∧ ((save_chapter_analysis (save_chapter_analysis S X1).1 X2).1).WF
    ∧ ((save_chapter_analysis (save_chapter_analysis S X1).1 X2).1).sections.filter
        (fun r => decide (r.chapter_id = X2.chapter_id)) = sectionRows X2
    ∧ ((save_chapter_analysis (save_chapter_analysis S X1).1 X2).1).propositions.filter
        (fun r => decide (r.chapter_id = X2.chapter_id)) = propRows X2
    ∧ ((save_chapter_analysis (save_chapter_analysis S X1).1 X2).1).key_takeaways.filter
        (fun r => decide (r.chapter_id = X2.chapter_id)) = takeawayRows X2 := by
  obtain ⟨hval1, hins1, heq1⟩ := save_true_eq S X1 h1
  obtain ⟨hWF1, hno1⟩ := saveTarget_WF_no hWF X1
  obtain ⟨hval2, hins2, heq2⟩ := save_true_eq _ X2 h2
  have hcidmem : X2.chapter_id ∈
      (insertChapterRows (saveTarget S X1) X1).chapters.map ChapterRow.chapter_id := by
    rw [hcid]
    exact mem_map_append_right ChapterRow.chapter_id (by simp [chapterRow])
  have hSX2X1 : saveTarget S X2 = saveTarget S X1 := by
    unfold saveTarget
    rw [hcid]
  have hsteq : saveTarget (save_chapter_analysis S X1).1 X2 = saveTarget S X2 := by
    rw [heq1, saveTarget_pos hcidmem, hcid,
      delete_insert_cancel hWF1 hno1 hins1 hcarry1, hSX2X1]
  have hins2' : insertionsOk (saveTarget S X2) X2 := hsteq ▸ hins2
  have hA := save_eq_of_ok hval2 hins2
  have hB := save_eq_of_ok hval2 hins2'
  have hmain : save_chapter_analysis (save_chapter_analysis S X1).1 X2
      = save_chapter_analysis S X2 := by
    rw [hA, hB, hsteq]
  have hfinal : (save_chapter_analysis (save_chapter_analysis S X1).1 X2).1
      = insertChapterRows (saveTarget S X2) X2 := by
    rw [hA, hsteq]
  obtain ⟨hWF2, hno2⟩ := saveTarget_WF_no hWF X2
  refine ⟨hmain, by rw [hmain], ?_, ?_, ?_, ?_⟩
  · rw [hfinal]
    exact insertChapterRows_WF hWF2 hins2' hval2 hcarry2
  · rw [hfinal]
    show ((saveTarget S X2).sections ++ sectionRows X2).filter _ = _
    exact filter_append_left_none _ _ _
      (fun r hr => by simp [hno2.2.1 r hr])
      (fun r hr => by simp [sectionRows_chapter X2 r hr])
  · rw [hfinal]
    show ((saveTarget S X2).propositions ++ propRows X2).filter _ = _
    exact filter_append_left_none _ _ _
      (fun r hr => by simp [hno2.2.2.2.2.1 r hr])
      (fun r hr => by simp [propRows_chapter hcarry2 r hr])
  · rw [hfinal]
    show ((saveTarget S X2).key_takeaways ++ takeawayRows X2).filter _ = _
    exact filter_append_left_none _ _ _
      (fun r hr => by simp [hno2.2.2.2.2.2 r hr])
      (fun r hr => by simp [takeawayRows_chapter hcarry2 r hr])

theorem C4_overwrite_witness :
    save_chapter_analysis (save_chapter_analysis emptyStore chOK).1 chOK2
      = save_chapter_analysis emptyStore chOK2 :=
  (C4_overwrite emptyStore chOK chOK2 (by decide) (by decide) (by decide)
    (by decide) (by decide) (by decide)).1

/-- Claim C5, amended: the save-time validator checks invariants 1-3 but
reports only the **first** violation it scans (all invalid proposition
references of a single takeaway are listed together in that one error):
its result is exactly the head of the full spec-style enumeration of
violations, not the whole list. -/
theorem C5_validation_first (c : ChapterAnalysis) :
    saveValidationError c = (specViolations c).head? :=
  saveValidationError_eq_head c

/-- Claim C5 counterexample: with two propositions referencing unknown
sections the full enumeration has two violations, but the raised error
names only the first proposition — it does not enumerate every
violation. -/
theorem C5_validation_cex :
    specViolations chTwoBad
      = [SaveError.propBadUnit "p1" "bogus1", SaveError.propBadUnit "p2" "bogus2"]
    ∧ saveValidationError chTwoBad = some (SaveError.propBadUnit "p1" "bogus1") := by
  constructor
  · decide
  · decide

/-- Claim C6: section-text extraction is total (one span per section,
never raising): if the title occurs nowhere — case-sensitively or
case-insensitively — the span is the entire document; if it is located
(first case-sensitive occurrence, else first case-insensitive), the span
runs from that offset to the start of the next section's title (searched
from the end of the current title, case-sensitive then case-insensitive)
or to end of document. -/
theorem C6_segmentation (ft t : List Char) (next : Option (List Char)) (ss : List Sec) :
    (sectionSpans ft ss).length = ss.length
    ∧ (¬ OccursFrom ft t 0 → ¬ OccursFrom (lowerStr ft) (lowerStr t) 0 →
        extractSectionText ft t next = ft)
    ∧ (∀ s, TitleStart ft t s →
        extractSectionText ft t none = ft.drop s
        ∧ ∀ nt, ∃ e, BoundaryEnd ft nt (s + t.length) e ∧
            extractSectionText ft t (some nt) = (ft.drop s).take (e - s)) :=
  ⟨sectionSpans_length ft ss,
   fun h1 h2 => extractSectionText_not_found h1 h2,
   fun _ hs => extractSectionText_found hs⟩

theorem C6_segmentation_witness :
    extractSectionText "abc".data "XY".data none = "abc".data
    ∧ extractSectionText "hello world".data "world".data none
      = ("hello world".data.drop 6) := by
  constructor
  · exact (C6_segmentation "abc".data "XY".data none []).2.1 (by decide) (by decide)
  · exact ((C6_segmentation "hello world".data "world".data none []).2.2 6 (by decide)).1

/-- Claim C7, amended: every proposition reference of every takeaway of a
chapter that save accepts resolves to a proposition of that chapter
(enforced before commit); the non-emptiness of `proposition_ids` is
**not** enforced anywhere. -/
theorem C7_takeaway_refs (s : Store) (c : ChapterAnalysis)
    (h : (save_chapter_analysis s c).2 = true) :
    ∀ t ∈ c.phase2.key_takeaways, ∀ pid ∈ t.proposition_ids, pid ∈ validPropIds c := by
  have hval := (save_true_eq s c h).1
  exact ((saveValidationError_none_iff c).mp hval).2.2

/-- Claim C7 counterexample: a takeaway with an **empty**
`proposition_ids` list is accepted and persisted (the dead-code
`validate_proposition_ids` helper is never called), contradicting the
claim that such a takeaway is never persisted. -/
theorem C7_takeaway_refs_cex :
    (save_chapter_analysis emptyStore chTkEmpty).2 = true
    ∧ (save_chapter_analysis emptyStore chTkEmpty).1.key_takeaways.map TakeawayRow.id
      = ["ch01_t001"]
    ∧ (save_chapter_analysis emptyStore chTkEmpty).1.takeaway_propositions = [] := by
  refine ⟨by decide, by decide, by decide⟩

theorem C7_takeaway_refs_witness :
    "ch01_1.1_p001" ∈ validPropIds chOK :=
  C7_takeaway_refs emptyStore chOK (by decide)
    ⟨"ch01_t001", "ch01", some "1.1", "syn",
      ["ch01_1.1_p001", "ch01_1.1_p002"], some .analyze, ["th"]⟩
    (by decide) "ch01_1.1_p001" (by decide)

/-- Claim C8: `delete_chapter` removes the chapter row and dependent rows
via the spec-modelled cascade, never raises — but it returns `True`
even when the chapter id does not exist (the affected row count is never
inspected), where the claim, the spec and the caller
(`app.py` lines 349-355, mapping `False` to 404) expect `False`. -/
theorem C8_delete_missing :
    (∀ s cid, (delete_chapter s cid).2 = true)
    ∧ delete_chapter emptyStore "missing" = (emptyStore, true) := by
  refine ⟨fun s cid => rfl, by decide⟩

/-- Claim C10: `save_chapter_analysis` always returns a boolean and never
propagates an exception; every failure path rolls back, returning
`False` with the store exactly unchanged; success commits and returns
`True`; the orchestrator's storage stage maps the `False` return — not
an exception — to its `StorageError`. -/
theorem C10_save_bool (s : Store) (c : ChapterAnalysis) :
    ((save_chapter_analysis s c).2 = false →
      (save_chapter_analysis s c).1 = s ∧
        storageStage s c
          = Except.error "Failed to save to database: Database save returned False")
    ∧ ((save_chapter_analysis s c).2 = true →
        storageStage s c = Except.ok (save_chapter_analysis s c).1) := by
  constructor
  · intro hf
    refine ⟨save_false_store_unchanged s c hf, ?_⟩
    simp [storageStage, hf]
  · intro htr
    simp [storageStage, htr]

theorem C10_save_bool_witness :
    storageStage emptyStore chDup
      = Except.error "Failed to save to database: Database save returned False"
    ∧ (save_chapter_analysis emptyStore chDup).1 = emptyStore := by
  have h := (C10_save_bool emptyStore chDup).1 (by decide)
  exact ⟨h.2, h.1⟩

/-- Claim C9: the proposition-count targets are
`min = max(3, ⌊words/150⌋)` and `max = max(5, ⌊words/100⌋)`; the lower
bound never exceeds the upper; in particular a section of 80 words gets
the floors `min = 3`, `max = 5`. -/
theorem C9_target_bounds :
    (∀ words : Nat, min_props words = max 3 (words / 150)
      ∧ max_props words = max 5 (words / 100)
      ∧ min_props words ≤ max_props words)
    ∧ min_props 80 = 3 ∧ max_props 80 = 5 := by
  refine ⟨fun words => ⟨rfl, rfl, ?_⟩, by decide, by decide⟩
  have h1 : words / 150 ≤ words / 100 := Nat.div_le_div_left (by omega) (by omega)
  unfold min_props max_props
  omega


end Graff
